import Mathlib

/-!
Verification development for the ArgoHelmDeploy manifest-update tool
(`main.py`).  The Python source is shallowly embedded: YAML documents
become an inductive `Yaml` type, Python dict mutation becomes functional
update of association lists, `fail()` / uncaught exceptions become
explicit result constructors, and the filesystem / git subprocesses are
modelled as explicit state.
-/

namespace ArgoHelmDeploy

/-- YAML scalar / collection values as produced by `yaml.safe_load`.
Mappings are modelled as insertion-ordered association lists with string
keys (the manifests this tool manipulates use string keys throughout);
floats are not modelled (never consulted by the code under study). -/
inductive Yaml where
  | null
  | bool (b : Bool)
  | int (n : Int)
  | str (s : String)
  | list (xs : List Yaml)
  | map (kvs : List (String × Yaml))

abbrev Dict := List (String × Yaml)

/-- Python `dict.get(key)`: value of the first matching key, `None` when
absent (CPython dicts have unique keys; the association list is the
insertion-ordered view of one). -/
def pyGet (m : Dict) (k : String) : Yaml :=
  match m with
  | [] => Yaml.null
  | (k', v) :: rest => if k' = k then v else pyGet rest k

/-- Python `m[key] = v`: replace the value at an existing key in place
(keeping its position), append the pair when the key is absent. -/
def setKey (m : Dict) (k : String) (v : Yaml) : Dict :=
  match m with
  | [] => [(k, v)]
  | (k', v') :: rest => if k' = k then (k, v) :: rest else (k', v') :: setKey rest k v

/-- Python truthiness of a YAML value (`bool(x)`). -/
def truthy : Yaml → Bool
  | Yaml.null => false
  | Yaml.bool b => b
  | Yaml.int n => n != 0
  | Yaml.str s => !s.isEmpty
  | Yaml.list xs => !xs.isEmpty
  | Yaml.map kvs => !kvs.isEmpty

/-- Python `y == s` where `s` is a `str`: true exactly when `y` is that
string (equality between a string and any other loaded YAML value is
`False` in Python). -/
def isStrEq (y : Yaml) (s : String) : Bool :=
  match y with
  | Yaml.str t => t = s
  | _ => false

/-- Python truthiness of the `chart_name : str | None` argument. -/
def chartGiven : Option String → Bool
  | some c => !c.isEmpty
  | none => false

/-- Outcome of `update_target_revision`: the function either mutates the
document (returned here as the updated document), calls `fail()`
(message printed, `sys.exit(1)`), or raises an uncaught Python
exception (`AttributeError`/`TypeError` from treating a non-mapping as
a mapping). -/
inductive UpdResult where
  | ok (doc : Dict)
  | fatal (msg : String)
  | exn

/-- The scan `for s in sources: if s and s.get("chart") == chart_name:
target = s; break` — index of the first truthy mapping entry whose
`chart` equals the identifier; `.error` when a truthy non-mapping entry
is reached first (`s.get` raises). -/
def scanSources (c : String) : List Yaml → Except Unit (Option Nat)
  | [] => Except.ok none
  | s :: rest =>
    if truthy s then
      match s with
      | Yaml.map m =>
        if isStrEq (pyGet m "chart") c then Except.ok (some 0)
        else (scanSources c rest).map (Option.map (· + 1))
      | _ => Except.error ()
    else (scanSources c rest).map (Option.map (· + 1))

/-- Tail of the `spec.sources` branch (lines 73–78): the scanned index,
or `sources[0]` as fallback when the scan produced nothing; `fail` when
the picked entry is falsy, raise when it is a truthy non-mapping
(item assignment), else set its `targetRevision` in place. -/
def sourcesApply (doc spec : Dict) (ss : List Yaml) (version : String)
    (idxOpt : Option Nat) : UpdResult :=
  if truthy (ss.getD (idxOpt.getD 0) Yaml.null) then
    match ss.getD (idxOpt.getD 0) Yaml.null with
    | Yaml.map t =>
      UpdResult.ok (setKey doc "spec" (Yaml.map (setKey spec "sources"
        (Yaml.list (ss.set (idxOpt.getD 0) (Yaml.map (setKey t "targetRevision" (Yaml.str version))))))))
    | _ => UpdResult.exn
  else UpdResult.fatal "Chart not found in spec.sources."

/-- The `spec.sources` branch of `update_target_revision` (lines 66–78). -/
def sourcesCase (doc spec : Dict) (ss : List Yaml) (version : String)
    (chart_name : Option String) : UpdResult :=
  match (if chartGiven chart_name then scanSources (chart_name.getD "") ss
         else Except.ok none) with
  | Except.error _ => UpdResult.exn
  | Except.ok idxOpt => sourcesApply doc spec ss version idxOpt

/-- The `spec.source` branch of `update_target_revision` (lines 80–84). -/
def sourceCase (doc spec : Dict) (source : Yaml) (version : String)
    (chart_name : Option String) : UpdResult :=
  if truthy source then
    if chartGiven chart_name then
      match source with
      | Yaml.map src =>
        if isStrEq (pyGet src "chart") (chart_name.getD "") then
          UpdResult.ok (setKey doc "spec" (Yaml.map (setKey spec "source"
            (Yaml.map (setKey src "targetRevision" (Yaml.str version))))))
        else UpdResult.fatal "Chart in spec.source does not match."
      | _ => UpdResult.exn
    else
      match source with
      | Yaml.map src =>
        UpdResult.ok (setKey doc "spec" (Yaml.map (setKey spec "source"
          (Yaml.map (setKey src "targetRevision" (Yaml.str version))))))
      | _ => UpdResult.exn
  else UpdResult.fatal "Application manifest has no spec.source (or spec.sources)."

/-- Function `update_target_revision(doc, version, chart_name)` (main.py 61–84).
`spec = doc.get("spec") or {}` — note a falsy `spec` is replaced by a
fresh empty dict, in which case both lookups yield `None` and the
function fails without mutating `doc`; every successful path therefore
goes through the aliased `doc["spec"]`, which the functional result
reflects with `setKey doc "spec" …`. -/
def update_target_revision (doc : Dict) (version : String)
    (chart_name : Option String) : UpdResult :=
  match (if truthy (pyGet doc "spec") then pyGet doc "spec" else Yaml.map []) with
  | Yaml.map spec =>
    match pyGet spec "sources" with
    | Yaml.list ss =>
      if !ss.isEmpty then sourcesCase doc spec ss version chart_name
      else sourceCase doc spec (pyGet spec "source") version chart_name
    | _ => sourceCase doc spec (pyGet spec "source") version chart_name
  | _ => UpdResult.exn

def c4wSrcs : List Yaml :=
  [Yaml.map [("chart", Yaml.str "c1"), ("targetRevision", Yaml.str "1")]]

def c4wSpec : Dict :=
  [("source", Yaml.map [("chart", Yaml.str "c0"), ("targetRevision", Yaml.str "0")]),
   ("sources", Yaml.list c4wSrcs)]

def c4wDoc : Dict := [("spec", Yaml.map c4wSpec)]

def c4wRes : Dict :=
  [("spec", Yaml.map
    [("source", Yaml.map [("chart", Yaml.str "c0"), ("targetRevision", Yaml.str "0")]),
     ("sources", Yaml.list [Yaml.map [("chart", Yaml.str "c1"), ("targetRevision", Yaml.str "9")]])])]

def c8wSrcs : List Yaml :=
  [Yaml.map [("chart", Yaml.str "c1"), ("targetRevision", Yaml.str "1")],
   Yaml.map [("chart", Yaml.str "c2"), ("targetRevision", Yaml.str "2")]]

def c8wDoc : Dict := [("spec", Yaml.map [("sources", Yaml.list c8wSrcs)])]

def c8wRes : Dict :=
  [("spec", Yaml.map [("sources", Yaml.list
    [Yaml.map [("chart", Yaml.str "c1"), ("targetRevision", Yaml.str "1")],
     Yaml.map [("chart", Yaml.str "c2"), ("targetRevision", Yaml.str "9")]])])]

/-! The configuration reader `get_input` (main.py 18–25). -/

/-- ASCII upper-casing of one character (`str.upper()`; the input names
used by this program are ASCII). -/
def upperChar (c : Char) : Char :=
  if 'a' ≤ c ∧ c ≤ 'z' then Char.ofNat (c.toNat - 32) else c

/-- The key `INPUT_` followed by `name.upper().replace('-', '_')`. -/
def inputKey (name : String) : String :=
  "INPUT_" ++ ⟨name.data.map (fun c =>
    if upperChar c = '-' then '_' else upperChar c)⟩

/-- Function `get_input(name, default, required=...)` over an environment
modelled as a map from variable names to optional values to values.  `val is None
or val == ""` triggers the missing path: raise `ValueError` when
`required` and no default, else return `default or ""`. -/
def get_input (env : String → Option String) (name : String) (default : Option String)
    (required : Bool) : Except String String :=
  match env (inputKey name) with
  | some v =>
    if v = "" then
      (if required ∧ default = none then
        Except.error ("Missing required input: " ++ name)
       else Except.ok (default.getD ""))
    else Except.ok v
  | none =>
    if required ∧ default = none then
      Except.error ("Missing required input: " ++ name)
    else Except.ok (default.getD "")

def c10envEmpty : String → Option String :=
  fun k => if k = inputKey "repo-url" then some "" else none

def c10envUnset : String → Option String := fun _ => none

/-! The orchestrator `main()` after the clone step (main.py 129–190),
with the filesystem and the git subprocess modelled as explicit state:
the filesystem is a map from (joined) paths to entries, file contents
are stored as their parsed YAML (`yaml.safe_load` failure as `none`),
and git commands are recorded in order with an oracle `gitRc` supplying
each command's exit code. -/

inductive FsEntry where
  | missing
  | dir
  | other
  | file (doc : Option Yaml)

abbrev FS := String → FsEntry

/-- Python `Path(workdir) / p` (the `.resolve()` normalisation is modelled as
plain joining; all paths in the model are already canonical). -/
def pjoin (a b : String) : String := a ++ "/" ++ b

/-- Python `Path(app_path).relative_to(workdir)` for paths produced by
`pjoin workdir _`. -/
def relTo (workdir p : String) : String := ⟨p.data.drop (workdir.data.length + 1)⟩

inductive Outcome where
  | ok
  | fatal (msg : String)
  | exn
  | subprocExit (rc : Int)
deriving Repr, DecidableEq

inductive GitCmd where
  | config (k v : String)
  | add (p : String)
  | commit (msg : String)
  | push (branch : String)
deriving Repr, DecidableEq

/-- Function `resolve_application_path(workdir, package_path, chart_name)`
(main.py 45–58).  The `chart_name` parameter of the Python function is
unused in its body and omitted here.  Errors carry the process outcome:
`fail()` messages, or an uncaught exception (`read_text` on a
directory, `yaml.safe_load` on malformed content, `.get` on a
non-mapping document). -/
def resolve_application_path (fs : FS) (workdir package_path : String) :
    Except Outcome (String × Dict) :=
  match fs (pjoin workdir package_path) with
  | FsEntry.missing => Except.error (Outcome.fatal "Path does not exist")
  | FsEntry.dir =>
    Except.error (Outcome.fatal "Path must be a file (Application manifest), not a directory")
  | FsEntry.other => Except.error (Outcome.fatal "Path is not a file")
  | FsEntry.file none => Except.error Outcome.exn
  | FsEntry.file (some doc) =>
    if truthy doc then
      match doc with
      | Yaml.map m =>
        if isStrEq (pyGet m "kind") "Application" then
          Except.ok (pjoin workdir package_path, m)
        else Except.error (Outcome.fatal "File is not an ArgoCD Application manifest")
      | _ => Except.error Outcome.exn
    else Except.error (Outcome.fatal "File is not an ArgoCD Application manifest")

/-- The package lookup loop (main.py 138–142): first truthy entry whose
`name` equals the requested package name; a truthy non-mapping entry
raises (`p.get`). -/
def findPkg (name : String) : List Yaml → Except Unit (Option Dict)
  | [] => Except.ok none
  | p :: rest =>
    if truthy p then
      match p with
      | Yaml.map m =>
        if isStrEq (pyGet m "name") name then Except.ok (some m)
        else findPkg name rest
      | _ => Except.error ()
    else findPkg name rest

/-- Python `pkg.get("path") or "./"` (main.py 147); a truthy non-string path
raises later at `Path(workdir) / package_path`. -/
def pkgPathOf (m : Dict) : Except Unit String :=
  if truthy (pyGet m "path") then
    match pyGet m "path" with
    | Yaml.str s => Except.ok s
    | _ => Except.error ()
  else Except.ok "./"

/-- Python `pkg_path.replace("$", env)` — every `$` replaced. -/
def substDollar (p env : String) : String :=
  ⟨p.data.foldr (fun ch acc => if ch = '$' then env.data ++ acc else ch :: acc) []⟩

/-- The multi-environment resolution loop (main.py 151–155): resolve
every environment's manifest, stopping at the first failure, before
anything is written. -/
def resolveTargets (fs : FS) (workdir tmpl : String) :
    List String → Except Outcome (List (String × Dict))
  | [] => Except.ok []
  | e :: rest =>
    match resolve_application_path fs workdir (substDollar tmpl e) with
    | Except.error o => Except.error o
    | Except.ok t =>
      match resolveTargets fs workdir tmpl rest with
      | Except.error o => Except.error o
      | Except.ok ts => Except.ok (t :: ts)

/-- The update-and-write loop (main.py 160–167): for each resolved
target, run `update_target_revision` and rewrite the file; a failing
update aborts the loop, leaving the files already written. -/
def writeTargets (fs : FS) (workdir version : String) (chart : Option String) :
    List (String × Dict) → (Except Outcome (List String)) × FS × List String
  | [] => (Except.ok [], fs, [])
  | (p, m) :: rest =>
    match update_target_revision m version chart with
    | UpdResult.ok m' =>
      match writeTargets (fun q => if q = p then FsEntry.file (some (Yaml.map m')) else fs q)
          workdir version chart rest with
      | (Except.ok ps, fs', prints) =>
        (Except.ok (p :: ps), fs',
         ("Updated targetRevision to " ++ version ++ " in " ++ relTo workdir p) :: prints)
      | (Except.error o, fs', prints) =>
        (Except.error o, fs',
         ("Updated targetRevision to " ++ version ++ " in " ++ relTo workdir p) :: prints)
    | UpdResult.fatal msg => (Except.error (Outcome.fatal msg), fs, [])
    | UpdResult.exn => (Except.error Outcome.exn, fs, [])

/-- The `git add` loop (main.py 171–173); `run_git` with `check=True`,
so a non-zero exit raises `CalledProcessError`. -/
def addPhase (gitRc : GitCmd → Int) : List String → Except Int Unit × List GitCmd
  | [] => (Except.ok (), [])
  | p :: rest =>
    if gitRc (GitCmd.add p) = 0 then
      match addPhase gitRc rest with
      | (r, log) => (r, GitCmd.add p :: log)
    else (Except.error (gitRc (GitCmd.add p)), [GitCmd.add p])

/-- The git tail of `main()` (lines 169–190): configure the bot
identity, stage each path, commit with `check=False`, and push only
when the commit exited 0; a non-zero commit exit is reported as "No
changes to commit" and the run returns successfully. -/
def commitAndPush (gitRc : GitCmd → Int) (relPaths : List String) (msg branch : String) :
    Outcome × List GitCmd × List String :=
  if gitRc (GitCmd.config "user.name" "github-actions[bot]") ≠ 0 then
    (Outcome.subprocExit (gitRc (GitCmd.config "user.name" "github-actions[bot]")),
     [GitCmd.config "user.name" "github-actions[bot]"], [])
  else if gitRc (GitCmd.config "user.email" "github-actions[bot]@users.noreply.github.com") ≠ 0 then
    (Outcome.subprocExit
       (gitRc (GitCmd.config "user.email" "github-actions[bot]@users.noreply.github.com")),
     [GitCmd.config "user.name" "github-actions[bot]",
      GitCmd.config "user.email" "github-actions[bot]@users.noreply.github.com"], [])
  else
    match addPhase gitRc relPaths with
    | (Except.error rc, log) =>
      (Outcome.subprocExit rc,
       GitCmd.config "user.name" "github-actions[bot]" ::
        GitCmd.config "user.email" "github-actions[bot]@users.noreply.github.com" :: log, [])
    | (Except.ok _, log) =>
      if gitRc (GitCmd.commit msg) ≠ 0 then
        (Outcome.ok,
         GitCmd.config "user.name" "github-actions[bot]" ::
          GitCmd.config "user.email" "github-actions[bot]@users.noreply.github.com" ::
          (log ++ [GitCmd.commit msg]),
         ["No changes to commit (targetRevision already set to this version)."])
      else if gitRc (GitCmd.push branch) ≠ 0 then
        (Outcome.subprocExit (gitRc (GitCmd.push branch)),
         GitCmd.config "user.name" "github-actions[bot]" ::
          GitCmd.config "user.email" "github-actions[bot]@users.noreply.github.com" ::
          (log ++ [GitCmd.commit msg, GitCmd.push branch]), [])
      else
        (Outcome.ok,
         GitCmd.config "user.name" "github-actions[bot]" ::
          GitCmd.config "user.email" "github-actions[bot]@users.noreply.github.com" ::
          (log ++ [GitCmd.commit msg, GitCmd.push branch]),
         ["Pushed changes successfully."])

/-- The configuration values `main()` has read by line 114 (the
`get_input` layer and the multi/environments validation happen before
the clone and are modelled separately). -/
structure Config where
  package_file_path : String
  package_name : String
  version : String
  chart_name : Option String
  branch : String
  multi : Bool
  environments : List String

/-- The commit message (main.py 175–179). -/
def commitMsgOf (cfg : Config) : String :=
  if cfg.multi then
    "chore(helm): update " ++ cfg.package_name ++ " to " ++ cfg.version ++
      " (envs: " ++ String.intercalate "," cfg.environments ++ ")"
  else "chore(helm): update " ++ cfg.package_name ++ " to " ++ cfg.version

/-- Result of the modelled run: process outcome, final filesystem,
git commands issued after the clone, and the progress lines printed. -/
structure RunResult where
  outcome : Outcome
  fs : FS
  git : List GitCmd
  prints : List String

/-- Write phase plus git tail, shared by the single and multi branches
(main.py 160–190). -/
def afterResolve (fs : FS) (cfg : Config) (workdir : String) (gitRc : GitCmd → Int)
    (targets : List (String × Dict)) : RunResult :=
  match writeTargets fs workdir cfg.version cfg.chart_name targets with
  | (Except.error o, fs', prints) => ⟨o, fs', [], prints⟩
  | (Except.ok paths, fs', prints) =>
    match commitAndPush gitRc (paths.map (relTo workdir)) (commitMsgOf cfg) cfg.branch with
    | (o, log, prints2) => ⟨o, fs', log, prints ++ prints2⟩

/-- Function `main()` from the package-file read to the end (main.py 129–190).
Note the single-environment branch (line 157) resolves `pkg_path`
verbatim — no `$` substitution and no placeholder check; only the
multi branch (line 149) requires `$` in the path. -/
def mainPhase (fs : FS) (cfg : Config) (workdir : String) (gitRc : GitCmd → Int) : RunResult :=
  match fs (pjoin workdir cfg.package_file_path) with
  | FsEntry.missing => ⟨Outcome.fatal "Package file not found", fs, [], []⟩
  | FsEntry.dir => ⟨Outcome.exn, fs, [], []⟩
  | FsEntry.other => ⟨Outcome.exn, fs, [], []⟩
  | FsEntry.file none => ⟨Outcome.exn, fs, [], []⟩
  | FsEntry.file (some pdoc) =>
    if truthy pdoc then
      match pdoc with
      | Yaml.map pm =>
        match pyGet pm "packages" with
        | Yaml.list pl =>
          match findPkg cfg.package_name pl with
          | Except.error _ => ⟨Outcome.exn, fs, [], []⟩
          | Except.ok none =>
            ⟨Outcome.ok, fs, [],
             ["Package \"" ++ cfg.package_name ++ "\" not found in " ++
              cfg.package_file_path ++ "; skipping."]⟩
          | Except.ok (some pkgm) =>
            match pkgPathOf pkgm with
            | Except.error _ => ⟨Outcome.exn, fs, [], []⟩
            | Except.ok pkg_path =>
              if cfg.multi then
                if pkg_path.data.contains '$' then
                  match resolveTargets fs workdir pkg_path cfg.environments with
                  | Except.error o => ⟨o, fs, [], []⟩
                  | Except.ok targets => afterResolve fs cfg workdir gitRc targets
                else
                  ⟨Outcome.fatal
                    "In multi mode, package path must contain placeholder for the environment name",
                   fs, [], []⟩
              else
                match resolve_application_path fs workdir pkg_path with
                | Except.error o => ⟨o, fs, [], []⟩
                | Except.ok t => afterResolve fs cfg workdir gitRc [t]
        | _ => ⟨Outcome.fatal "Package file must contain a top-level packages array", fs, [], []⟩
      | _ => ⟨Outcome.exn, fs, [], []⟩
    else ⟨Outcome.fatal "Package file must contain a top-level packages array", fs, [], []⟩

def c3fs : FS := fun q =>
  if q = "/wd/packages.yaml" then
    FsEntry.file (some (Yaml.map [("packages", Yaml.list
      [Yaml.map [("name", Yaml.str "otherpkg"), ("path", Yaml.str "app.yaml")]])]))
  else FsEntry.missing

def c3cfg : Config :=
  ⟨"packages.yaml", "missingpkg", "2.0.0", none, "main", false, []⟩

def c9git : GitCmd → Int := fun c =>
  match c with
  | GitCmd.commit _ => 1
  | _ => 0

def c2wfs : FS := fun q =>
  if q = "/wd/packages.yaml" then
    FsEntry.file (some (Yaml.map [("packages", Yaml.list
      [Yaml.map [("name", Yaml.str "mypkg"), ("path", Yaml.str "apps/$/app.yaml")]])]))
  else if q = "/wd/apps/stg/app.yaml" then
    FsEntry.file (some (Yaml.map [("kind", Yaml.str "Application"),
      ("spec", Yaml.map [("source", Yaml.map
        [("chart", Yaml.str "c"), ("targetRevision", Yaml.str "1")])])]))
  else FsEntry.missing

def c2wcfg : Config :=
  ⟨"packages.yaml", "mypkg", "2.0.0", none, "main", true, ["dev", "stg"]⟩

def c2xfs : FS := fun q =>
  if q = "/wd/packages.yaml" then
    FsEntry.file (some (Yaml.map [("packages", Yaml.list
      [Yaml.map [("name", Yaml.str "mypkg"), ("path", Yaml.str "apps/$/app.yaml")]])]))
  else if q = "/wd/apps/dev/app.yaml" then
    FsEntry.file (some (Yaml.map [("kind", Yaml.str "Application"),
      ("spec", Yaml.map [("source", Yaml.map
        [("chart", Yaml.str "c"), ("targetRevision", Yaml.str "1")])])]))
  else if q = "/wd/apps/stg/app.yaml" then
    FsEntry.file (some (Yaml.map [("kind", Yaml.str "Application"),
      ("spec", Yaml.map [])]))
  else FsEntry.missing

def c2xcfg : Config :=
  ⟨"packages.yaml", "mypkg", "2.0.0", none, "main", true, ["dev", "stg"]⟩

def c5xfs : FS := fun q =>
  if q = "/wd/packages.yaml" then
    FsEntry.file (some (Yaml.map [("packages", Yaml.list
      [Yaml.map [("name", Yaml.str "mypkg"), ("path", Yaml.str "apps/$/app.yaml")]])]))
  else if q = "/wd/apps/$/app.yaml" then
    FsEntry.file (some (Yaml.map [("kind", Yaml.str "Application"),
      ("spec", Yaml.map [("source", Yaml.map
        [("chart", Yaml.str "c"), ("targetRevision", Yaml.str "1")])])]))
  else FsEntry.missing

def c5xcfg : Config :=
  ⟨"packages.yaml", "mypkg", "2.0.0", none, "main", false, []⟩

/-! Function `build_auth_url` (main.py 28–42) over character lists, together with
the slice of `urllib.parse` (CPython 3.11) it invokes.  The embedding
works on `List Char`; `build_auth_url` wraps it for `String`.  ASCII
approximations (`str.lower`, `str.upper`, `str.strip`) coincide with
CPython on the ASCII inputs the validity predicates of the theorems
describe; the WHATWG control-character stripping done by `urlsplit` is
the identity on such inputs and is not modelled. -/

def eqChar (t : Char) : Char → Bool := fun c => c = t

def neChar (t : Char) : Char → Bool := fun c => c ≠ t

/-- Python `str.strip()` whitespace. -/
def isSpace (c : Char) : Bool :=
  c = ' ' || c = '\t' || c = '\n' || c = '\r' || c.toNat = 11 || c.toNat = 12

def trimChars (l : List Char) : List Char :=
  ((l.dropWhile isSpace).reverse.dropWhile isSpace).reverse

def sshPat : List Char := "git@github.com:".data

def httpsRep : List Char := "https://github.com/".data

def dotGit : List Char := ".git".data

def httpsPre : List Char := "https://".data

/-- Python `s.replace(pat, rep)` — every occurrence, scanning left to right
(the code only calls it with the non-empty literal `"git@github.com:"`,
for which the `pat = []` guard never fires). -/
def replaceFrom (pat rep : List Char) : List Char → List Char
  | [] => []
  | c :: rest =>
    if pat ≠ [] ∧ pat.isPrefixOf (c :: rest) then
      rep ++ replaceFrom pat rep (rest.drop (pat.length - 1))
    else c :: replaceFrom pat rep rest
termination_by l => l.length
decreasing_by
  · simp
    omega
  · simp

/-- Python `s.rstrip("/")`. -/
def rstripSlash (l : List Char) : List Char :=
  (l.reverse.dropWhile (eqChar '/')).reverse

def endsWithL (suf l : List Char) : Bool := suf.reverse.isPrefixOf l.reverse

/-- Python `s.split(t, 1)`: text before the first occurrence of `t`, and the
text after it (empty when `t` is absent — which the callers in
`urlsplit` cannot distinguish from `t` being the last character, and do
not need to). -/
def splitOnce (t : Char) (l : List Char) : List Char × List Char :=
  match l.dropWhile (neChar t) with
  | [] => (l, [])
  | _ :: rest => (l.takeWhile (neChar t), rest)

/-- Helper `_splitparams` (urllib): split `;params` off the last path
segment. -/
def splitParams (url : List Char) : List Char × List Char :=
  if url.contains '/' then
    match splitOnce ';' ((url.reverse.takeWhile (neChar '/')).reverse) with
    | (p, par) => ((url.reverse.dropWhile (neChar '/')).reverse ++ p, par)
  else splitOnce ';' url

/-- Helper `_hostinfo` (urllib): strip userinfo at the last `@`, then split
hostname and port at `:` (with the bracketed-IPv6 variant). -/
def hostPort (netloc : List Char) : List Char × List Char :=
  let hostinfo := (netloc.reverse.takeWhile (neChar '@')).reverse
  if hostinfo.contains '[' then
    let bracketed := (hostinfo.dropWhile (neChar '[')).drop 1
    let port0 := (bracketed.dropWhile (neChar ']')).drop 1
    (bracketed.takeWhile (neChar ']'),
     (port0.dropWhile (neChar ':')).drop 1)
  else
    (hostinfo.takeWhile (neChar ':'),
     (hostinfo.dropWhile (neChar ':')).drop 1)

/-- ASCII `str.lower` on one character. -/
def lowerChar (c : Char) : Char :=
  if 'A' ≤ c ∧ c ≤ 'Z' then Char.ofNat (c.toNat + 32) else c

/-- The `hostname` property: lowercase the part before a `%` zone
separator, keep the zone verbatim. -/
def hostLower (h : List Char) : List Char :=
  (h.takeWhile (neChar '%')).map lowerChar ++ h.dropWhile (neChar '%')

def digitChar : Nat → Char
  | 0 => '0'
  | 1 => '1'
  | 2 => '2'
  | 3 => '3'
  | 4 => '4'
  | 5 => '5'
  | 6 => '6'
  | 7 => '7'
  | 8 => '8'
  | _ => '9'

/-- Decimal rendering of a natural number (the f-string `f":{port}"`
with `port : int`). -/
def natToDecAux : Nat → List Char → List Char
  | 0, acc => acc
  | n+1, acc => natToDecAux ((n+1) / 10) (digitChar ((n+1) % 10) :: acc)
termination_by n _ => n
decreasing_by exact Nat.div_lt_self (Nat.succ_pos _) (by omega)

def natToDec (n : Nat) : List Char := if n = 0 then ['0'] else natToDecAux n []

def decDigit (c : Char) : Nat := c.toNat - 48

/-- Python `int(s)` on a plain decimal digit string. -/
def decVal (l : List Char) : Nat := l.foldl (fun a c => a * 10 + decDigit c) 0

def isDigitCh (c : Char) : Bool :=
  c = '0' || c = '1' || c = '2' || c = '3' || c = '4' ||
  c = '5' || c = '6' || c = '7' || c = '8' || c = '9'

/-- The `port` property: `None` for an empty port string, the value for
an ASCII digit string in range 0–65535, `ValueError` otherwise. -/
def parsePort (l : List Char) : Except Unit (Option Nat) :=
  if l.isEmpty then Except.ok none
  else if l.all isDigitCh then
    if decVal l ≤ 65535 then Except.ok (some (decVal l)) else Except.error ()
  else Except.error ()

def notStop (c : Char) : Bool := c ≠ '/' && c ≠ '?' && c ≠ '#'

/-- Functions `urlunparse` / `urlunsplit` (urllib): reassemble the six
components.  The `scheme in uses_netloc` membership test is modelled as
true for any non-empty scheme (`https`, the only scheme reaching this
code, is in `uses_netloc`). -/
def urlunparse (scheme netloc path params query frag : List Char) : List Char :=
  let u1 := if params.isEmpty then path else path ++ ';' :: params
  let u2 :=
    if !netloc.isEmpty || (!scheme.isEmpty && u1.take 2 ≠ ['/', '/']) then
      '/' :: '/' :: (netloc ++
        (if !u1.isEmpty && u1.take 1 ≠ ['/'] then '/' :: u1 else u1))
    else u1
  let u3 := if scheme.isEmpty then u2 else scheme ++ ':' :: u2
  let u4 := if query.isEmpty then u3 else u3 ++ '?' :: query
  if frag.isEmpty then u4 else u4 ++ '#' :: frag

/-- Lines 36–42 of `build_auth_url`: `urlparse(normalized)` (which here
always carries scheme `https` and a `//`-prefixed remainder), the
rebuilt `x-access-token` netloc, and `urlunparse`.  `none` models the
`ValueError` raised by the `port` property on an invalid port. -/
def httpsInject (n3 token : List Char) : Option (List Char) :=
  let rest := n3.drop httpsPre.length
  let netloc := rest.takeWhile notStop
  let rem := rest.dropWhile notStop
  match splitOnce '#' rem with
  | (rem1, frag) =>
    match splitOnce '?' rem1 with
    | (rem2, query) =>
      match splitParams rem2 with
      | (path, params) =>
        match hostPort netloc with
        | (host0, portStr) =>
          match parsePort portStr with
          | Except.error _ => none
          | Except.ok portv =>
            let hostRender := if host0.isEmpty then "None".data else hostLower host0
            let netloc2 := "x-access-token:".data ++ token ++ '@' :: hostRender ++
              (match portv with
               | some p => if p ≠ 0 then ':' :: natToDec p else []
               | none => [])
            some (urlunparse "https".data netloc2 path params query frag)

/-- Function `build_auth_url(repo_url, token)` (main.py 28–42) on character
lists: strip, rewrite the `git@github.com:` shorthand, force a `.git`
suffix, and inject the token into the authority of an HTTPS URL;
non-HTTPS results return the original `repo_url` unchanged. -/
def buildAuthChars (repo_url token : List Char) : Option (List Char) :=
  let n1 := trimChars repo_url
  let n2 := if sshPat.isPrefixOf n1 then replaceFrom sshPat httpsRep n1 else n1
  let n3 := if endsWithL dotGit n2 then n2 else rstripSlash n2 ++ dotGit
  if httpsPre.isPrefixOf n3 then httpsInject n3 token
  else some repo_url

/-- Function `build_auth_url` on `String`s; `none` models an uncaught
`ValueError` from the `port` property. -/
def build_auth_url (repo_url token : String) : Option String :=
  (buildAuthChars repo_url.data token.data).map fun l => ⟨l⟩

/-- The rendered port part of an authority (`""` or `":<port>"`). -/
def renderPort : Option Nat → List Char
  | some p => ':' :: natToDec p
  | none => []

/-- A structurally valid HTTPS repository URL
`https://<host>[:<port>]<path>`, rendered. -/
def renderUrl (host : List Char) (port : Option Nat) (path : List Char) : List Char :=
  httpsPre ++ host ++ renderPort port ++ path

/-- The rendered `:{parsed.port}` suffix appended to the rebuilt
netloc (empty for a missing or zero port). -/
def portSuffix (portv : Option Nat) : List Char :=
  match portv with
  | some p => if p ≠ 0 then ':' :: natToDec p else []
  | none => []

/-! Basic facts about the dictionary operations. -/

theorem pyGet_setKey_self (m : Dict) (k : String) (v : Yaml) :
    pyGet (setKey m k v) k = v := by
  induction m with
  | nil => simp [setKey, pyGet]
  | cons p rest ih =>
    obtain ⟨a, b⟩ := p
    by_cases hak : a = k
    · simp [setKey, pyGet, hak]
    · simp [setKey, pyGet, hak, ih]

theorem pyGet_setKey_ne (m : Dict) (k k' : String) (v : Yaml) (h : k' ≠ k) :
    pyGet (setKey m k v) k' = pyGet m k' := by
  induction m with
  | nil =>
    simp only [setKey, pyGet]
    rw [if_neg (fun e : k = k' => h e.symm)]
  | cons p rest ih =>
    obtain ⟨a, b⟩ := p
    by_cases hak : a = k
    · subst hak
      simp only [setKey, if_pos rfl, pyGet]
      rw [if_neg (fun e : a = k' => h e.symm), if_neg (fun e : a = k' => h e.symm)]
    · simp only [setKey, if_neg hak, pyGet]
      by_cases hak' : a = k'
      · rw [if_pos hak', if_pos hak']
      · rw [if_neg hak', if_neg hak', ih]

theorem getD_set_ne (l : List Yaml) (i j : Nat) (a : Yaml) (h : j ≠ i) :
    (l.set i a).getD j Yaml.null = l.getD j Yaml.null := by
  rw [List.getD_eq_getElem?_getD, List.getD_eq_getElem?_getD,
    List.getElem?_set_ne (Ne.symm h)]

theorem scanSources_lt (c : String) (ss : List Yaml) (i : Nat)
    (h : scanSources c ss = Except.ok (some i)) : i < ss.length := by
  induction ss generalizing i with
  | nil => simp [scanSources] at h
  | cons s rest ih =>
    by_cases hs : truthy s
    · cases s with
      | map m =>
        by_cases hc : isStrEq (pyGet m "chart") c
        · simp [scanSources, hs, hc] at h
          subst h
          simp
        · simp only [scanSources, hs, if_true, hc, if_false, if_neg] at h
          cases hrec : scanSources c rest with
          | error e => rw [hrec] at h; simp [Except.map] at h
          | ok o =>
            rw [hrec] at h
            cases o with
            | none => simp [Except.map] at h
            | some j =>
              simp [Except.map] at h
              subst h
              have := ih j hrec
              simp
              omega
      | null => simp [truthy] at hs
      | bool b => simp [scanSources, hs] at h
      | int n => simp [scanSources, hs] at h
      | str t => simp [scanSources, hs] at h
      | list xs => simp [scanSources, hs] at h
    · simp only [scanSources, hs, if_false, Bool.false_eq_true] at h
      cases hrec : scanSources c rest with
      | error e => rw [hrec] at h; simp [Except.map] at h
      | ok o =>
        rw [hrec] at h
        cases o with
        | none => simp [Except.map] at h
        | some j =>
          simp [Except.map] at h
          subst h
          have := ih j hrec
          simp
          omega

theorem sourcesApply_ok (doc spec : Dict) (ss : List Yaml) (version : String)
    (idxOpt : Option Nat) (doc' : Dict)
    (hlt : ∀ i, idxOpt = some i → i < ss.length)
    (h : sourcesApply doc spec ss version idxOpt = UpdResult.ok doc') :
    ∃ i t, i < ss.length ∧ ss.getD i Yaml.null = Yaml.map t ∧
      doc' = setKey doc "spec" (Yaml.map (setKey spec "sources"
        (Yaml.list (ss.set i (Yaml.map (setKey t "targetRevision" (Yaml.str version))))))) := by
  unfold sourcesApply at h
  by_cases htr : truthy (ss.getD (idxOpt.getD 0) Yaml.null)
  · rw [if_pos htr] at h
    cases htg : ss.getD (idxOpt.getD 0) Yaml.null with
    | map t =>
      rw [htg] at h
      refine ⟨idxOpt.getD 0, t, ?_, htg, ?_⟩
      · cases idxOpt with
        | some i => exact hlt i rfl
        | none =>
          cases ss with
          | nil => simp [List.getD] at htg
          | cons a b => simp
      · cases h
        rfl
    | null => rw [htg] at h; cases h
    | bool b => rw [htg] at h; cases h
    | int n => rw [htg] at h; cases h
    | str s => rw [htg] at h; cases h
    | list xs => rw [htg] at h; cases h
  · rw [if_neg htr] at h
    cases h

theorem sourcesCase_ok (doc spec : Dict) (ss : List Yaml) (version : String)
    (c : Option String) (doc' : Dict)
    (h : sourcesCase doc spec ss version c = UpdResult.ok doc') :
    ∃ i t, i < ss.length ∧ ss.getD i Yaml.null = Yaml.map t ∧
      doc' = setKey doc "spec" (Yaml.map (setKey spec "sources"
        (Yaml.list (ss.set i (Yaml.map (setKey t "targetRevision" (Yaml.str version))))))) := by
  unfold sourcesCase at h
  cases hscan : (if chartGiven c then scanSources (c.getD "") ss else Except.ok none) with
  | error e => rw [hscan] at h; cases h
  | ok idxOpt =>
    rw [hscan] at h
    refine sourcesApply_ok doc spec ss version idxOpt doc' ?_ h
    intro i hi
    subst hi
    by_cases hg : chartGiven c
    · rw [if_pos hg] at hscan
      exact scanSources_lt _ _ _ hscan
    · rw [if_neg hg] at hscan
      cases hscan

theorem sourceCase_ok (doc spec : Dict) (source : Yaml) (version : String)
    (c : Option String) (doc' : Dict)
    (h : sourceCase doc spec source version c = UpdResult.ok doc') :
    ∃ src, source = Yaml.map src ∧
      doc' = setKey doc "spec" (Yaml.map (setKey spec "source"
        (Yaml.map (setKey src "targetRevision" (Yaml.str version))))) := by
  unfold sourceCase at h
  by_cases htr : truthy source
  · rw [if_pos htr] at h
    by_cases hg : chartGiven c
    · rw [if_pos hg] at h
      cases source with
      | map src =>
        have h2 : (if isStrEq (pyGet src "chart") (c.getD "") = true then
            UpdResult.ok (setKey doc "spec" (Yaml.map (setKey spec "source"
              (Yaml.map (setKey src "targetRevision" (Yaml.str version))))))
          else UpdResult.fatal "Chart in spec.source does not match.") = UpdResult.ok doc' := h
        by_cases hc : isStrEq (pyGet src "chart") (c.getD "")
        · rw [if_pos hc] at h2
          cases h2
          exact ⟨src, rfl, rfl⟩
        · rw [if_neg hc] at h2; cases h2
      | null => cases h
      | bool b => cases h
      | int n => cases h
      | str s => cases h
      | list xs => cases h
    · rw [if_neg hg] at h
      cases source with
      | map src =>
        cases h
        exact ⟨src, rfl, rfl⟩
      | null => cases h
      | bool b => cases h
      | int n => cases h
      | str s => cases h
      | list xs => cases h
  · rw [if_neg htr] at h
    cases h

theorem update_ok_split (doc : Dict) (version : String) (c : Option String) (doc' : Dict)
    (h : update_target_revision doc version c = UpdResult.ok doc') :
    ∃ spec, pyGet doc "spec" = Yaml.map spec ∧
      ((∃ ss, pyGet spec "sources" = Yaml.list ss ∧ ss ≠ [] ∧
          sourcesCase doc spec ss version c = UpdResult.ok doc')
       ∨ (sourceCase doc spec (pyGet spec "source") version c = UpdResult.ok doc' ∧
          ∀ ss, pyGet spec "sources" = Yaml.list ss → ss = [])) := by
  unfold update_target_revision at h
  split at h
  · rename_i spec heq
    by_cases htr : truthy (pyGet doc "spec")
    · rw [if_pos htr] at heq
      refine ⟨spec, heq, ?_⟩
      split at h
      · rename_i ss heq2
        by_cases hne : ss.isEmpty
        · right
          refine ⟨by simpa [hne] using h, ?_⟩
          intro ss' hss'
          rw [heq2] at hss'
          injection hss' with e
          rw [← e]
          exact List.isEmpty_iff.mp hne
        · have hb : ss.isEmpty = false := by
            revert hne
            cases ss.isEmpty <;> simp
          left
          refine ⟨ss, heq2, ?_, ?_⟩
          · intro e
            subst e
            simp at hb
          · simpa [hb] using h
      · rename_i x hnl
        right
        refine ⟨h, ?_⟩
        intro ss hss
        exact absurd hss (fun e => hnl ss e)
    · rw [if_neg htr] at heq
      injection heq with e
      subst e
      simp [pyGet, sourceCase, truthy] at h
  · rename_i x heq
    cases h

/-! Claim theorems about `update_target_revision`. -/

/-- C1: evaluation of the code at the failing input.  The claim (and the
spec, and the code's own `fail` message) say that a chart identifier
matching no entry of `spec.sources` is a fatal error with no mutation;
the code instead falls back to `sources[0]` and sets its
`targetRevision`, returning successfully.  Here the identifier is
`"c2"`, the only entry's chart is `"c1"`, and the update nevertheless
succeeds, rewriting the `"c1"` entry. -/
theorem c1_unmatched_chart_falls_back_to_first :
    update_target_revision
      [("spec", Yaml.map [("sources", Yaml.list
        [Yaml.map [("chart", Yaml.str "c1"), ("targetRevision", Yaml.str "1")]])])]
      "2.0.0" (some "c2")
    = UpdResult.ok
      [("spec", Yaml.map [("sources", Yaml.list
        [Yaml.map [("chart", Yaml.str "c1"), ("targetRevision", Yaml.str "2.0.0")]])])] := rfl

/-- C4 (counterexample): a manifest where `spec.sources` is present but
an empty list.  The claim says `spec.source` is never touched whenever
`spec.sources` is present, including when it is empty; the code's guard
`if sources and isinstance(sources, list)` is false for `[]`, so the
`spec.source` branch runs and `spec.source.targetRevision` is rewritten. -/
theorem c4_empty_sources_counterexample :
    pyGet [("source", Yaml.map [("chart", Yaml.str "c"), ("targetRevision", Yaml.str "1")]),
           ("sources", Yaml.list [])] "sources" = Yaml.list [] ∧
    update_target_revision
      [("spec", Yaml.map
        [("source", Yaml.map [("chart", Yaml.str "c"), ("targetRevision", Yaml.str "1")]),
         ("sources", Yaml.list [])])]
      "2" none
    = UpdResult.ok
      [("spec", Yaml.map
        [("source", Yaml.map [("chart", Yaml.str "c"), ("targetRevision", Yaml.str "2")]),
         ("sources", Yaml.list [])])] ∧
    Yaml.map [("chart", Yaml.str "c"), ("targetRevision", Yaml.str "2")] ≠
      Yaml.map [("chart", Yaml.str "c"), ("targetRevision", Yaml.str "1")] := by
  refine ⟨rfl, rfl, ?_⟩
  intro e
  injection e with e
  simp at e

/-- C4 (amended): `spec.sources` takes precedence over `spec.source`
whenever it is present as a NON-EMPTY list: the target is then selected
from `spec.sources` and `spec.source` is left untouched.  (When
`spec.sources` is an empty list the code treats it as absent and falls
back to `spec.source`.) -/
theorem c4_nonempty_sources_precedence (doc : Dict) (version : String) (c : Option String)
    (spec : Dict) (ss : List Yaml) (doc' : Dict)
    (hspec : pyGet doc "spec" = Yaml.map spec)
    (hss : pyGet spec "sources" = Yaml.list ss)
    (hne : ss ≠ [])
    (hok : update_target_revision doc version c = UpdResult.ok doc') :
    ∃ spec', pyGet doc' "spec" = Yaml.map spec' ∧
      pyGet spec' "source" = pyGet spec "source" ∧
      ∃ i t, i < ss.length ∧ ss.getD i Yaml.null = Yaml.map t ∧
        pyGet spec' "sources" =
          Yaml.list (ss.set i (Yaml.map (setKey t "targetRevision" (Yaml.str version)))) := by
  obtain ⟨spec₂, hspec₂, hd⟩ := update_ok_split doc version c doc' hok
  rw [hspec] at hspec₂
  injection hspec₂ with e
  subst e
  rcases hd with ⟨ss₂, hss₂, hne₂, hsc⟩ | ⟨hsrc, hforall⟩
  · rw [hss] at hss₂
    injection hss₂ with e2
    subst e2
    obtain ⟨i, t, hi, ht, rfl⟩ := sourcesCase_ok _ _ _ _ _ _ hsc
    exact ⟨setKey spec "sources" (Yaml.list (ss.set i
        (Yaml.map (setKey t "targetRevision" (Yaml.str version))))),
      pyGet_setKey_self .., pyGet_setKey_ne _ _ _ _ (by decide),
      i, t, hi, ht, pyGet_setKey_self ..⟩
  · exact absurd (hforall ss hss) hne

/-- C4 (witness): the amended precedence theorem instantiated at a
concrete manifest holding both `spec.source` and a one-entry
`spec.sources`. -/
theorem c4_nonempty_sources_precedence_witness :
    ∃ spec', pyGet c4wRes "spec" = Yaml.map spec' ∧
      pyGet spec' "source" = pyGet c4wSpec "source" ∧
      ∃ i t, i < c4wSrcs.length ∧ c4wSrcs.getD i Yaml.null = Yaml.map t ∧
        pyGet spec' "sources" =
          Yaml.list (c4wSrcs.set i (Yaml.map (setKey t "targetRevision" (Yaml.str "9")))) :=
  c4_nonempty_sources_precedence c4wDoc "9" none c4wSpec c4wSrcs c4wRes rfl rfl
    (List.cons_ne_nil _ _) rfl

/-- C8: frame property of a successful update.  Whenever
`update_target_revision` succeeds, the resulting document is the input
document with exactly one source entry's `targetRevision` replaced by
the given version: every key of the document other than `spec` is
unchanged, every key of `spec` other than the mutated one (`source`
resp. `sources`) is unchanged, in the `sources` case every list entry
other than the selected index `i` is unchanged, and within the selected
entry every key other than `targetRevision` is unchanged while
`targetRevision` becomes the version string. -/
theorem c8_update_frame (doc : Dict) (version : String) (c : Option String) (doc' : Dict)
    (h : update_target_revision doc version c = UpdResult.ok doc') :
    ∃ spec spec', pyGet doc "spec" = Yaml.map spec ∧ pyGet doc' "spec" = Yaml.map spec' ∧
      (∀ k, k ≠ "spec" → pyGet doc' k = pyGet doc k) ∧
      ((∃ src, pyGet spec "source" = Yaml.map src ∧
          spec' = setKey spec "source" (Yaml.map (setKey src "targetRevision" (Yaml.str version))) ∧
          (∀ k, k ≠ "source" → pyGet spec' k = pyGet spec k) ∧
          pyGet (setKey src "targetRevision" (Yaml.str version)) "targetRevision" =
            Yaml.str version ∧
          (∀ k, k ≠ "targetRevision" →
            pyGet (setKey src "targetRevision" (Yaml.str version)) k = pyGet src k))
       ∨ (∃ ss i t, pyGet spec "sources" = Yaml.list ss ∧ i < ss.length ∧
            ss.getD i Yaml.null = Yaml.map t ∧
            spec' = setKey spec "sources" (Yaml.list (ss.set i
              (Yaml.map (setKey t "targetRevision" (Yaml.str version))))) ∧
            (∀ k, k ≠ "sources" → pyGet spec' k = pyGet spec k) ∧
            (∀ j, j ≠ i → (ss.set i (Yaml.map (setKey t "targetRevision"
              (Yaml.str version)))).getD j Yaml.null = ss.getD j Yaml.null) ∧
            pyGet (setKey t "targetRevision" (Yaml.str version)) "targetRevision" =
              Yaml.str version ∧
            (∀ k, k ≠ "targetRevision" →
              pyGet (setKey t "targetRevision" (Yaml.str version)) k = pyGet t k))) := by
  obtain ⟨spec, hspec, hd⟩ := update_ok_split doc version c doc' h
  rcases hd with ⟨ss, hss, hne, hsc⟩ | ⟨hsrc, hempty⟩
  · obtain ⟨i, t, hi, ht, rfl⟩ := sourcesCase_ok _ _ _ _ _ _ hsc
    exact ⟨spec, _, hspec, pyGet_setKey_self .., fun k hk => pyGet_setKey_ne _ _ _ _ hk,
      Or.inr ⟨ss, i, t, hss, hi, ht, rfl, fun k hk => pyGet_setKey_ne _ _ _ _ hk,
        fun j hj => getD_set_ne _ _ _ _ hj, pyGet_setKey_self ..,
        fun k hk => pyGet_setKey_ne _ _ _ _ hk⟩⟩
  · obtain ⟨src, hsrcm, rfl⟩ := sourceCase_ok _ _ _ _ _ _ hsrc
    exact ⟨spec, _, hspec, pyGet_setKey_self .., fun k hk => pyGet_setKey_ne _ _ _ _ hk,
      Or.inl ⟨src, hsrcm, rfl, fun k hk => pyGet_setKey_ne _ _ _ _ hk,
        pyGet_setKey_self .., fun k hk => pyGet_setKey_ne _ _ _ _ hk⟩⟩

/-- C8 (witness): the frame theorem instantiated at the two-entry
manifest from the claim (`c1`/`c2`, identifier `"c2"`): the update
succeeds and the frame conclusion holds there. -/
theorem c8_update_frame_witness :
    update_target_revision c8wDoc "9" (some "c2") = UpdResult.ok c8wRes ∧
    (∃ spec spec', pyGet c8wDoc "spec" = Yaml.map spec ∧
      pyGet c8wRes "spec" = Yaml.map spec' ∧
      (∀ k, k ≠ "spec" → pyGet c8wRes k = pyGet c8wDoc k) ∧
      ((∃ src, pyGet spec "source" = Yaml.map src ∧
          spec' = setKey spec "source" (Yaml.map (setKey src "targetRevision" (Yaml.str "9"))) ∧
          (∀ k, k ≠ "source" → pyGet spec' k = pyGet spec k) ∧
          pyGet (setKey src "targetRevision" (Yaml.str "9")) "targetRevision" = Yaml.str "9" ∧
          (∀ k, k ≠ "targetRevision" →
            pyGet (setKey src "targetRevision" (Yaml.str "9")) k = pyGet src k))
       ∨ (∃ ss i t, pyGet spec "sources" = Yaml.list ss ∧ i < ss.length ∧
            ss.getD i Yaml.null = Yaml.map t ∧
            spec' = setKey spec "sources" (Yaml.list (ss.set i
              (Yaml.map (setKey t "targetRevision" (Yaml.str "9"))))) ∧
            (∀ k, k ≠ "sources" → pyGet spec' k = pyGet spec k) ∧
            (∀ j, j ≠ i → (ss.set i (Yaml.map (setKey t "targetRevision"
              (Yaml.str "9")))).getD j Yaml.null = ss.getD j Yaml.null) ∧
            pyGet (setKey t "targetRevision" (Yaml.str "9")) "targetRevision" = Yaml.str "9" ∧
            (∀ k, k ≠ "targetRevision" →
              pyGet (setKey t "targetRevision" (Yaml.str "9")) k = pyGet t k)))) :=
  ⟨rfl, c8_update_frame c8wDoc "9" (some "c2") c8wRes rfl⟩

/-- C10: `get_input` treats an environment variable set to the empty
string exactly like an unset one: the result is the same as with the
variable absent; a required input with no default raises the
missing-required-input error, and a non-required input yields its
default (empty string when no default was given). -/
theorem c10_empty_env_like_unset (env env' : String → Option String) (name : String)
    (default : Option String) (required : Bool)
    (h : env (inputKey name) = some "")
    (h' : env' (inputKey name) = none) :
    get_input env name default required = get_input env' name default required ∧
    (required = true → default = none →
      get_input env name default required =
        Except.error ("Missing required input: " ++ name)) ∧
    (required = false →
      get_input env name default required = Except.ok (default.getD "")) := by
  unfold get_input
  rw [h, h']
  refine ⟨by simp, ?_, ?_⟩
  · intro hr hd
    subst hr
    subst hd
    simp
  · intro hr
    subst hr
    simp

/-- C10 (witness): the theorem instantiated at the required `repo-url`
input, once with `INPUT_REPO_URL=""` and once with it unset. -/
theorem c10_empty_env_like_unset_witness :
    (get_input c10envEmpty "repo-url" none true =
      get_input c10envUnset "repo-url" none true) ∧
    (true = true → (none : Option String) = none →
      get_input c10envEmpty "repo-url" none true =
        Except.error ("Missing required input: " ++ "repo-url")) ∧
    (true = false →
      get_input c10envEmpty "repo-url" none true =
        Except.ok ((none : Option String).getD "")) :=
  c10_empty_env_like_unset c10envEmpty c10envUnset "repo-url" none true (by simp [c10envEmpty]) rfl

/-! Helper lemmas about the orchestrator model. -/

theorem findPkg_none (name : String) (pl : List Yaml)
    (hwf : ∀ y ∈ pl, ∃ m, y = Yaml.map m)
    (hmiss : ∀ m, Yaml.map m ∈ pl → isStrEq (pyGet m "name") name = false) :
    findPkg name pl = Except.ok none := by
  induction pl with
  | nil => rfl
  | cons p rest ih =>
    obtain ⟨m, rfl⟩ := hwf p (List.mem_cons_self ..)
    have hm := hmiss m (List.mem_cons_self ..)
    have ihr := ih (fun y hy => hwf y (List.mem_cons_of_mem _ hy))
      (fun m' hm' => hmiss m' (List.mem_cons_of_mem _ hm'))
    by_cases ht : truthy (Yaml.map m)
    · simp [findPkg, ht, hm, ihr]
    · simp [findPkg, ht, ihr]

theorem resolve_error_ne_ok (fs : FS) (workdir p : String) (o : Outcome)
    (h : resolve_application_path fs workdir p = Except.error o) : o ≠ Outcome.ok := by
  unfold resolve_application_path at h
  split at h
  · injection h with e
    subst e
    simp
  · injection h with e
    subst e
    simp
  · injection h with e
    subst e
    simp
  · injection h with e
    subst e
    simp
  · rename_i doc heq
    by_cases ht : truthy doc
    · rw [if_pos ht] at h
      split at h
      · split at h
        · cases h
        · injection h with e
          subst e
          simp
      · injection h with e
        subst e
        simp
    · rw [if_neg ht] at h
      injection h with e
      subst e
      simp

theorem resolveTargets_error (fs : FS) (workdir tmpl : String) (envs : List String)
    (e : String) (he : e ∈ envs) (o : Outcome)
    (hres : resolve_application_path fs workdir (substDollar tmpl e) = Except.error o) :
    ∃ o', (∃ e' ∈ envs,
        resolve_application_path fs workdir (substDollar tmpl e') = Except.error o') ∧
      resolveTargets fs workdir tmpl envs = Except.error o' := by
  induction envs with
  | nil => cases he
  | cons a rest ih =>
    cases hra : resolve_application_path fs workdir (substDollar tmpl a) with
    | error o₀ =>
      exact ⟨o₀, ⟨a, List.mem_cons_self .., hra⟩, by simp [resolveTargets, hra]⟩
    | ok t =>
      have herest : e ∈ rest := by
        rcases List.mem_cons.mp he with rfl | hr
        · rw [hra] at hres
          cases hres
        · exact hr
      obtain ⟨o', ⟨e', he', hre'⟩, hrt⟩ := ih herest
      exact ⟨o', ⟨e', List.mem_cons_of_mem _ he', hre'⟩, by simp [resolveTargets, hra, hrt]⟩

theorem addPhase_ok (gitRc : GitCmd → Int) (ps : List String)
    (h : ∀ p ∈ ps, gitRc (GitCmd.add p) = 0) :
    addPhase gitRc ps = (Except.ok (), ps.map GitCmd.add) := by
  induction ps with
  | nil => rfl
  | cons p rest ih =>
    have hp := h p (List.mem_cons_self ..)
    simp [addPhase, hp, ih (fun q hq => h q (List.mem_cons_of_mem _ hq))]

/-- C3: when the `packages` list of the package index (entries being
mappings, per the data model) contains no entry named the configured
package, `main()` logs the skip message and returns: exit code 0, the
filesystem untouched, and no git command (in particular no add, commit
or push) issued after the clone. -/
theorem c3_missing_package_is_noop (fs : FS) (cfg : Config) (workdir : String)
    (gitRc : GitCmd → Int) (pm : Dict) (pl : List Yaml)
    (hfile : fs (pjoin workdir cfg.package_file_path) = FsEntry.file (some (Yaml.map pm)))
    (hpl : pyGet pm "packages" = Yaml.list pl)
    (hwf : ∀ y ∈ pl, ∃ m, y = Yaml.map m)
    (hmiss : ∀ m, Yaml.map m ∈ pl → isStrEq (pyGet m "name") cfg.package_name = false) :
    mainPhase fs cfg workdir gitRc =
      ⟨Outcome.ok, fs, [],
       ["Package \"" ++ cfg.package_name ++ "\" not found in " ++
        cfg.package_file_path ++ "; skipping."]⟩ := by
  have hne : pm ≠ [] := by
    intro e
    subst e
    rw [show pyGet [] "packages" = Yaml.null from rfl] at hpl
    cases hpl
  have htr : truthy (Yaml.map pm) = true := by
    simp [truthy, List.isEmpty_iff, hne]
  have hfindn := findPkg_none cfg.package_name pl hwf hmiss
  unfold mainPhase
  rw [hfile]
  simp only [htr, if_true, hpl, hfindn]

/-- C3 (witness): the no-op theorem instantiated at a package file whose
single entry is named `otherpkg` while `missingpkg` is requested. -/
theorem c3_missing_package_is_noop_witness :
    mainPhase c3fs c3cfg "/wd" (fun _ => 0) =
      ⟨Outcome.ok, c3fs, [],
       ["Package \"" ++ "missingpkg" ++ "\" not found in " ++
        "packages.yaml" ++ "; skipping."]⟩ :=
  c3_missing_package_is_noop c3fs c3cfg "/wd" (fun _ => 0)
    [("packages", Yaml.list [Yaml.map [("name", Yaml.str "otherpkg"), ("path", Yaml.str "app.yaml")]])]
    [Yaml.map [("name", Yaml.str "otherpkg"), ("path", Yaml.str "app.yaml")]]
    (by rfl) rfl
    (by
      intro y hy
      rw [List.mem_singleton] at hy
      exact ⟨_, hy⟩)
    (by
      intro m hm
      rw [List.mem_singleton] at hm
      injection hm with e
      subst e
      rfl)

/-- C9: whenever the run reaches the commit step (bot identity
configured and every staged `git add` succeeded), ANY non-zero exit
code of `git commit` — whatever its cause — makes the run print "No
changes to commit (targetRevision already set to this version)",
terminate successfully, and issue no `git push`. -/
theorem c9_commit_failure_is_success_without_push (gitRc : GitCmd → Int)
    (relPaths : List String) (msg branch : String)
    (h1 : gitRc (GitCmd.config "user.name" "github-actions[bot]") = 0)
    (h2 : gitRc (GitCmd.config "user.email" "github-actions[bot]@users.noreply.github.com") = 0)
    (hadd : ∀ p ∈ relPaths, gitRc (GitCmd.add p) = 0)
    (hcommit : gitRc (GitCmd.commit msg) ≠ 0) :
    (commitAndPush gitRc relPaths msg branch).1 = Outcome.ok ∧
    (∀ b, GitCmd.push b ∉ (commitAndPush gitRc relPaths msg branch).2.1) ∧
    (commitAndPush gitRc relPaths msg branch).2.2 =
      ["No changes to commit (targetRevision already set to this version)."] := by
  have ha := addPhase_ok gitRc relPaths hadd
  refine ⟨?_, ?_, ?_⟩
  · simp [commitAndPush, h1, h2, ha, hcommit]
  · intro b
    simp [commitAndPush, h1, h2, ha, hcommit]
  · simp [commitAndPush, h1, h2, ha, hcommit]

/-- C9 (witness): the commit-failure theorem instantiated with a git
oracle whose `commit` exits 1 and everything else exits 0. -/
theorem c9_commit_failure_is_success_without_push_witness :
    (commitAndPush c9git ["app.yaml"] "chore(helm): update mypkg to 2.0.0" "main").1 =
      Outcome.ok ∧
    (∀ b, GitCmd.push b ∉
      (commitAndPush c9git ["app.yaml"] "chore(helm): update mypkg to 2.0.0" "main").2.1) ∧
    (commitAndPush c9git ["app.yaml"] "chore(helm): update mypkg to 2.0.0" "main").2.2 =
      ["No changes to commit (targetRevision already set to this version)."] :=
  c9_commit_failure_is_success_without_push c9git ["app.yaml"]
    "chore(helm): update mypkg to 2.0.0" "main" rfl rfl (fun p _ => rfl) (by decide)

/-- C2 (amended): in multi-environment mode, when resolving the
manifest of ANY one environment fails, the run terminates unsuccessfully
before any manifest file is written and before any git command: all
resolution happens before the first write.  (All-or-nothing holds for
resolution failures; the counterexample shows it does not extend to
failures inside the update/write loop itself.) -/
theorem c2_resolution_failure_writes_nothing (fs : FS) (cfg : Config) (workdir : String)
    (gitRc : GitCmd → Int) (pm : Dict) (pl : List Yaml) (pkgm : Dict) (tmpl : String)
    (hfile : fs (pjoin workdir cfg.package_file_path) = FsEntry.file (some (Yaml.map pm)))
    (hpl : pyGet pm "packages" = Yaml.list pl)
    (hfind : findPkg cfg.package_name pl = Except.ok (some pkgm))
    (hpath : pkgPathOf pkgm = Except.ok tmpl)
    (hmulti : cfg.multi = true)
    (e : String) (he : e ∈ cfg.environments) (o : Outcome)
    (hres : resolve_application_path fs workdir (substDollar tmpl e) = Except.error o) :
    (mainPhase fs cfg workdir gitRc).fs = fs ∧
    (mainPhase fs cfg workdir gitRc).git = [] ∧
    (mainPhase fs cfg workdir gitRc).outcome ≠ Outcome.ok := by
  have hne : pm ≠ [] := by
    intro e'
    subst e'
    rw [show pyGet [] "packages" = Yaml.null from rfl] at hpl
    cases hpl
  have htr : truthy (Yaml.map pm) = true := by
    simp [truthy, List.isEmpty_iff, hne]
  obtain ⟨o', ⟨e', he', hre'⟩, hrt⟩ :=
    resolveTargets_error fs workdir tmpl cfg.environments e he o hres
  have ho' := resolve_error_ne_ok _ _ _ _ hre'
  by_cases hd : tmpl.data.contains '$'
  · have hmain : mainPhase fs cfg workdir gitRc = ⟨o', fs, [], []⟩ := by
      unfold mainPhase
      rw [hfile]
      simp only [htr, if_true, hpl, hfind, hpath, hmulti, hd, hrt]
    rw [hmain]
    exact ⟨rfl, rfl, ho'⟩
  · have hdb : tmpl.data.contains '$' = false := by
      revert hd
      cases tmpl.data.contains '$' <;> simp
    have hmain : mainPhase fs cfg workdir gitRc =
        ⟨Outcome.fatal
          "In multi mode, package path must contain placeholder for the environment name",
         fs, [], []⟩ := by
      unfold mainPhase
      rw [hfile]
      simp only [htr, if_true, hpl, hfind, hpath, hmulti, hdb, Bool.false_eq_true, if_false]
    rw [hmain]
    exact ⟨rfl, rfl, by simp⟩

/-- C2 (witness): the resolution-failure theorem instantiated at a
two-environment run where the `dev` manifest is missing: nothing is
written although the `stg` manifest exists. -/
theorem c2_resolution_failure_writes_nothing_witness :
    (mainPhase c2wfs c2wcfg "/wd" (fun _ => 0)).fs = c2wfs ∧
    (mainPhase c2wfs c2wcfg "/wd" (fun _ => 0)).git = [] ∧
    (mainPhase c2wfs c2wcfg "/wd" (fun _ => 0)).outcome ≠ Outcome.ok :=
  c2_resolution_failure_writes_nothing c2wfs c2wcfg "/wd" (fun _ => 0)
    [("packages", Yaml.list
      [Yaml.map [("name", Yaml.str "mypkg"), ("path", Yaml.str "apps/$/app.yaml")]])]
    [Yaml.map [("name", Yaml.str "mypkg"), ("path", Yaml.str "apps/$/app.yaml")]]
    [("name", Yaml.str "mypkg"), ("path", Yaml.str "apps/$/app.yaml")]
    "apps/$/app.yaml" rfl rfl rfl rfl rfl
    "dev" (by decide) (Outcome.fatal "Path does not exist") rfl

/-- C2 (counterexample to "either every target file is rewritten or
none is"): both environments RESOLVE successfully (both files are valid
Application manifests), but the `stg` document has no `spec.source`, so
`update_target_revision` fails during the write loop AFTER the `dev`
file has already been rewritten: the run ends unsuccessfully with
exactly one of the two target files rewritten. -/
theorem c2_partial_write_counterexample :
    (mainPhase c2xfs c2xcfg "/wd" (fun _ => 0)).outcome ≠ Outcome.ok ∧
    (mainPhase c2xfs c2xcfg "/wd" (fun _ => 0)).fs "/wd/apps/dev/app.yaml" ≠
      c2xfs "/wd/apps/dev/app.yaml" ∧
    (mainPhase c2xfs c2xcfg "/wd" (fun _ => 0)).fs "/wd/apps/stg/app.yaml" =
      c2xfs "/wd/apps/stg/app.yaml" := by
  refine ⟨?_, ?_, ?_⟩
  · have h : (mainPhase c2xfs c2xcfg "/wd" (fun _ => 0)).outcome =
        Outcome.fatal "Application manifest has no spec.source (or spec.sources)." := rfl
    rw [h]
    simp
  · have h1 : (mainPhase c2xfs c2xcfg "/wd" (fun _ => 0)).fs "/wd/apps/dev/app.yaml" =
        FsEntry.file (some (Yaml.map [("kind", Yaml.str "Application"),
          ("spec", Yaml.map [("source", Yaml.map
            [("chart", Yaml.str "c"), ("targetRevision", Yaml.str "2.0.0")])])])) := rfl
    have h2 : c2xfs "/wd/apps/dev/app.yaml" =
        FsEntry.file (some (Yaml.map [("kind", Yaml.str "Application"),
          ("spec", Yaml.map [("source", Yaml.map
            [("chart", Yaml.str "c"), ("targetRevision", Yaml.str "1")])])])) := rfl
    rw [h1, h2]
    simp
  · rfl

/-- C5 (amended): in single mode (`multi` unset) the package path is
used verbatim: a `$` placeholder is neither substituted nor rejected.
When a file exists at the literal `$`-containing path and holds a valid
Application manifest on which the update succeeds, the run proceeds and
rewrites that file, instead of failing as the claim states. -/
theorem c5_single_mode_ignores_placeholder (fs : FS) (cfg : Config) (workdir : String)
    (gitRc : GitCmd → Int) (pm : Dict) (pl : List Yaml) (pkgm : Dict) (tmpl : String)
    (am am' : Dict)
    (hfile : fs (pjoin workdir cfg.package_file_path) = FsEntry.file (some (Yaml.map pm)))
    (hpl : pyGet pm "packages" = Yaml.list pl)
    (hfind : findPkg cfg.package_name pl = Except.ok (some pkgm))
    (hpath : pkgPathOf pkgm = Except.ok tmpl)
    (_hdollar : '$' ∈ tmpl.data)
    (hsingle : cfg.multi = false)
    (hres : resolve_application_path fs workdir tmpl = Except.ok (pjoin workdir tmpl, am))
    (hupd : update_target_revision am cfg.version cfg.chart_name = UpdResult.ok am') :
    (mainPhase fs cfg workdir gitRc).fs (pjoin workdir tmpl) =
      FsEntry.file (some (Yaml.map am')) := by
  have hne : pm ≠ [] := by
    intro e'
    subst e'
    rw [show pyGet [] "packages" = Yaml.null from rfl] at hpl
    cases hpl
  have htr : truthy (Yaml.map pm) = true := by
    simp [truthy, List.isEmpty_iff, hne]
  unfold mainPhase
  rw [hfile]
  simp only [htr, if_true, hpl, hfind, hpath, hsingle, Bool.false_eq_true, if_false, hres]
  unfold afterResolve
  simp only [writeTargets, hupd]
  simp

/-- C5 (counterexample): a single-mode run whose package path contains
the placeholder `$` and whose repository happens to contain a file at
that literal path: the orchestrator does NOT fail — it completes
successfully, rewriting the literal `$` file. -/
theorem c5_counterexample :
    c5xcfg.multi = false ∧
    '$' ∈ ("apps/$/app.yaml" : String).data ∧
    (mainPhase c5xfs c5xcfg "/wd" (fun _ => 0)).outcome = Outcome.ok ∧
    (mainPhase c5xfs c5xcfg "/wd" (fun _ => 0)).fs "/wd/apps/$/app.yaml" =
      FsEntry.file (some (Yaml.map [("kind", Yaml.str "Application"),
        ("spec", Yaml.map [("source", Yaml.map
          [("chart", Yaml.str "c"), ("targetRevision", Yaml.str "2.0.0")])])])) :=
  ⟨rfl, by decide, rfl, rfl⟩

/-- C5 (witness): the amended theorem instantiated at the same
single-mode run: the literal `$` path's file is the one rewritten. -/
theorem c5_single_mode_ignores_placeholder_witness :
    (mainPhase c5xfs c5xcfg "/wd" (fun _ => 0)).fs (pjoin "/wd" "apps/$/app.yaml") =
      FsEntry.file (some (Yaml.map [("kind", Yaml.str "Application"),
        ("spec", Yaml.map [("source", Yaml.map
          [("chart", Yaml.str "c"), ("targetRevision", Yaml.str "2.0.0")])])])) :=
  c5_single_mode_ignores_placeholder c5xfs c5xcfg "/wd" (fun _ => 0)
    [("packages", Yaml.list
      [Yaml.map [("name", Yaml.str "mypkg"), ("path", Yaml.str "apps/$/app.yaml")]])]
    [Yaml.map [("name", Yaml.str "mypkg"), ("path", Yaml.str "apps/$/app.yaml")]]
    [("name", Yaml.str "mypkg"), ("path", Yaml.str "apps/$/app.yaml")]
    "apps/$/app.yaml"
    [("kind", Yaml.str "Application"),
     ("spec", Yaml.map [("source", Yaml.map
       [("chart", Yaml.str "c"), ("targetRevision", Yaml.str "1")])])]
    [("kind", Yaml.str "Application"),
     ("spec", Yaml.map [("source", Yaml.map
       [("chart", Yaml.str "c"), ("targetRevision", Yaml.str "2.0.0")])])]
    rfl rfl rfl rfl (by decide) rfl rfl rfl

/-! List lemmas supporting the URL proofs. -/

theorem dropWhile_eq_self_of_all {p : Char → Bool} {l : List Char}
    (h : ∀ c ∈ l, p c = false) : l.dropWhile p = l := by
  cases l with
  | nil => rfl
  | cons a as => simp [List.dropWhile, h a (List.mem_cons_self ..)]

theorem trimChars_eq_self {l : List Char} (h : ∀ c ∈ l, isSpace c = false) :
    trimChars l = l := by
  unfold trimChars
  rw [dropWhile_eq_self_of_all h,
    dropWhile_eq_self_of_all (fun c hc => h c (List.mem_reverse.mp hc)),
    List.reverse_reverse]

theorem dropWhile_eq_nil_of_all {p : Char → Bool} {l : List Char}
    (h : ∀ c ∈ l, p c = true) : l.dropWhile p = [] :=
  List.dropWhile_eq_nil_iff.mpr h

theorem dropWhile_append_of_ne_nil {p : Char → Bool} {x : List Char} (y : List Char)
    (h : x.dropWhile p ≠ []) : (x ++ y).dropWhile p = x.dropWhile p ++ y := by
  induction x with
  | nil => exact absurd rfl h
  | cons a as ih =>
    by_cases hpa : p a
    · rw [List.dropWhile_cons, if_pos hpa] at h
      rw [List.cons_append, List.dropWhile_cons, if_pos hpa, List.dropWhile_cons, if_pos hpa]
      exact ih h
    · rw [List.cons_append, List.dropWhile_cons, if_neg hpa, List.dropWhile_cons, if_neg hpa,
        List.cons_append]

theorem isPrefixOf_append_self (x y : List Char) : x.isPrefixOf (x ++ y) = true :=
  List.isPrefixOf_iff_prefix.mpr ⟨y, rfl⟩

theorem endsWithL_append (x suf : List Char) : endsWithL suf (x ++ suf) = true := by
  unfold endsWithL
  rw [List.reverse_append]
  exact isPrefixOf_append_self _ _

theorem splitOnce_of_not_mem {t : Char} {l : List Char} (h : ∀ c ∈ l, c ≠ t) :
    splitOnce t l = (l, []) := by
  unfold splitOnce
  rw [dropWhile_eq_nil_of_all (fun c hc => by simpa [neChar] using h c hc)]

theorem splitParams_of_not_mem {l : List Char} (h : ∀ c ∈ l, c ≠ ';') :
    splitParams l = (l, []) := by
  unfold splitParams
  by_cases hc : l.contains '/'
  · rw [if_pos hc]
    rw [splitOnce_of_not_mem
      (fun c hcm => h c (by
        have hsub := List.takeWhile_prefix (l := l.reverse) (p := neChar '/')
        exact List.mem_reverse.mp (hsub.subset (List.mem_reverse.mp hcm))))]
    have hsplit : (l.reverse.dropWhile (neChar '/')).reverse ++
        (l.reverse.takeWhile (neChar '/')).reverse = l := by
      rw [← List.reverse_append, List.takeWhile_append_dropWhile, List.reverse_reverse]
    simp [hsplit]
  · rw [if_neg hc]
    exact splitOnce_of_not_mem h

theorem rstripSlash_decomp (l : List Char) :
    ∃ m, l = rstripSlash l ++ m ∧ ∀ c ∈ m, c = '/' := by
  refine ⟨(l.reverse.takeWhile (eqChar '/')).reverse, ?_, ?_⟩
  · conv_lhs => rw [← List.reverse_reverse l, ← List.takeWhile_append_dropWhile
      (p := eqChar '/') (l := l.reverse)]
    rw [List.reverse_append]
    rfl
  · intro c hc
    have hmem := List.mem_takeWhile_imp (List.mem_reverse.mp hc)
    simpa [eqChar] using hmem

theorem mem_rstripSlash {l : List Char} {c : Char} (h : c ∈ rstripSlash l) : c ∈ l := by
  obtain ⟨m, hm, -⟩ := rstripSlash_decomp l
  rw [hm]
  exact List.mem_append_left _ h

theorem rstripSlash_append {A path : List Char} (h : ∃ c ∈ path, c ≠ '/') :
    rstripSlash (A ++ path) = A ++ rstripSlash path := by
  have hne : path.reverse.dropWhile (eqChar '/') ≠ [] := by
    intro he
    obtain ⟨c, hc, hcne⟩ := h
    have hall := List.dropWhile_eq_nil_iff.mp he c (List.mem_reverse.mpr hc)
    simp [eqChar] at hall
    exact hcne hall
  unfold rstripSlash
  rw [List.reverse_append, dropWhile_append_of_ne_nil _ hne, List.reverse_append,
    List.reverse_reverse]

theorem contains_eq_false_of {l : List Char} {a : Char} (h : ∀ c ∈ l, c ≠ a) :
    l.contains a = false := by
  by_cases hc : l.contains a
  · exact absurd (List.elem_iff.mp hc) (fun hm => h a hm rfl)
  · simpa using hc

theorem digitChar_isDig (m : Nat) : isDigitCh (digitChar m) = true := by
  match m with
  | 0 => rfl
  | 1 => rfl
  | 2 => rfl
  | 3 => rfl
  | 4 => rfl
  | 5 => rfl
  | 6 => rfl
  | 7 => rfl
  | 8 => rfl
  | n+9 => rfl

theorem decDigit_digitChar {m : Nat} (h : m < 10) : decDigit (digitChar m) = m := by
  interval_cases m <;> rfl

theorem digit_props {c : Char} (h : isDigitCh c = true) :
    c ≠ '/' ∧ c ≠ '?' ∧ c ≠ '#' ∧ c ≠ '@' ∧ c ≠ '[' ∧ c ≠ ':' ∧ c ≠ ';' ∧
      isSpace c = false := by
  simp only [isDigitCh, Bool.or_eq_true, decide_eq_true_eq] at h
  rcases h with ((((((((rfl | rfl) | rfl) | rfl) | rfl) | rfl) | rfl) | rfl) | rfl) | rfl <;>
    exact (by decide)

theorem natToDecAux_append (n : Nat) (acc : List Char) :
    natToDecAux n acc = natToDecAux n [] ++ acc := by
  induction n using Nat.strong_induction_on generalizing acc with
  | _ n ih =>
    match n with
    | 0 => simp [natToDecAux]
    | m+1 =>
      have hq : (m+1) / 10 < m+1 := Nat.div_lt_self (Nat.succ_pos m) (by omega)
      rw [natToDecAux, natToDecAux, ih _ hq (digitChar ((m+1) % 10) :: acc),
        ih _ hq [digitChar ((m+1) % 10)]]
      simp

theorem natToDecAux_mem {n : Nat} {c : Char} (h : c ∈ natToDecAux n []) :
    isDigitCh c = true := by
  induction n using Nat.strong_induction_on with
  | _ n ih =>
    match n with
    | 0 => simp [natToDecAux] at h
    | m+1 =>
      have hq : (m+1) / 10 < m+1 := Nat.div_lt_self (Nat.succ_pos m) (by omega)
      rw [natToDecAux, natToDecAux_append] at h
      rcases List.mem_append.mp h with h1 | h2
      · exact ih _ hq h1
      · rw [List.mem_singleton] at h2
        rw [h2]
        exact digitChar_isDig _

theorem natToDec_mem {n : Nat} {c : Char} (h : c ∈ natToDec n) : isDigitCh c = true := by
  unfold natToDec at h
  by_cases h0 : n = 0
  · rw [if_pos h0, List.mem_singleton] at h
    rw [h]
    rfl
  · rw [if_neg h0] at h
    exact natToDecAux_mem h

theorem natToDecAux_ne_nil {n : Nat} (h : 0 < n) : natToDecAux n [] ≠ [] := by
  match n with
  | m+1 =>
    rw [natToDecAux, natToDecAux_append]
    simp

theorem decVal_init (n : Nat) :
    ∀ a : Nat, (natToDecAux n []).foldl (fun x c => x * 10 + decDigit c) a =
      a * 10 ^ (natToDecAux n []).length + n := by
  induction n using Nat.strong_induction_on with
  | _ n ih =>
    intro a
    match n with
    | 0 => simp [natToDecAux]
    | m+1 =>
      have hq : (m+1) / 10 < m+1 := Nat.div_lt_self (Nat.succ_pos m) (by omega)
      conv_lhs => rw [natToDecAux, natToDecAux_append]
      conv_rhs => rw [natToDecAux, natToDecAux_append]
      rw [List.foldl_append, ih _ hq a]
      simp only [List.foldl_cons, List.foldl_nil, List.length_append, List.length_cons,
        List.length_nil]
      rw [decDigit_digitChar (Nat.mod_lt _ (by omega))]
      have hdm : (m+1) / 10 * 10 + (m+1) % 10 = m + 1 := by
        have := Nat.div_add_mod (m+1) 10
        omega
      have hpow : 10 ^ ((natToDecAux ((m+1) / 10) []).length + (0 + 1)) =
          10 ^ (natToDecAux ((m+1) / 10) []).length * 10 := by
        rw [pow_succ]
      rw [hpow]
      ring_nf
      omega

theorem decVal_natToDec {n : Nat} (h : 0 < n) : decVal (natToDec n) = n := by
  unfold natToDec decVal
  rw [if_neg (by omega)]
  rw [decVal_init n 0]
  simp

theorem replaceFrom_append_pat (pat rep rest : List Char) (hp : pat ≠ []) :
    replaceFrom pat rep (pat ++ rest) = rep ++ replaceFrom pat rep rest := by
  match pat, hp with
  | a :: as, _ =>
    rw [List.cons_append, replaceFrom,
      if_pos ⟨by simp, List.isPrefixOf_iff_prefix.mpr ⟨rest, by simp⟩⟩]
    congr 1
    simp [List.drop_left]

theorem replaceFrom_of_not_mem {pat : List Char} (rep : List Char) {a : Char} (ha : a ∈ pat)
    (l : List Char) (h : ∀ c ∈ l, c ≠ a) : replaceFrom pat rep l = l := by
  induction l with
  | nil => rw [replaceFrom]
  | cons c rest ih =>
    rw [replaceFrom, if_neg ?_]
    · exact congrArg (c :: ·) (ih (fun d hd => h d (List.mem_cons_of_mem _ hd)))
    · rintro ⟨hne, hpre⟩
      exact h a ((List.isPrefixOf_iff_prefix.mp hpre).subset ha) rfl

theorem httpsPre_of_append_dotGit {R : List Char}
    (h : httpsPre.isPrefixOf (R ++ dotGit) = true) : httpsPre.isPrefixOf R = true := by
  have hpre := List.isPrefixOf_iff_prefix.mp h
  have htake := List.prefix_iff_eq_take.mp hpre
  rw [List.take_append_eq_append_take] at htake
  by_cases hlen : httpsPre.length ≤ R.length
  · apply List.isPrefixOf_iff_prefix.mpr
    have h0 : httpsPre.length - R.length = 0 := by omega
    rw [h0] at htake
    simp at htake
    exact List.prefix_iff_eq_take.mpr htake
  · exfalso
    push_neg at hlen
    have hRfull : R.take httpsPre.length = R := List.take_of_length_le (by omega)
    rw [hRfull] at htake
    obtain ⟨j, hj⟩ : ∃ j, httpsPre.length - R.length = j + 1 :=
      ⟨httpsPre.length - R.length - 1, by omega⟩
    rw [hj] at htake
    have hdg : dotGit.take (j + 1) = '.' :: ("git".data.take j) := rfl
    rw [hdg] at htake
    have hmem : '.' ∈ httpsPre := by
      rw [htake]
      exact List.mem_append_right _ (List.mem_cons_self ..)
    revert hmem
    decide

theorem urlunparse_auth_shape (token H path params query frag : List Char) :
    ∃ tail, urlunparse "https".data ("x-access-token:".data ++ token ++ '@' :: H)
        path params query frag =
      httpsPre ++ "x-access-token:".data ++ token ++ '@' :: tail := by
  have hA : ∀ X : List Char, ("x-access-token:".data ++ X).isEmpty = false := fun _ => rfl
  have hS : ("https".data).isEmpty = false := rfl
  simp only [urlunparse, hA, hS, Bool.not_false, Bool.true_or, eq_self_iff_true, if_true,
    Bool.false_eq_true, if_false, ite_true, ite_false]
  by_cases hq : query.isEmpty <;> by_cases hf : frag.isEmpty <;>
    simp only [hq, hf, eq_self_iff_true, if_true, Bool.false_eq_true, if_false,
      ite_true, ite_false]
  · exact ⟨H ++ (if !(if params.isEmpty then path else path ++ ';' :: params).isEmpty &&
        (if params.isEmpty then path else path ++ ';' :: params).take 1 ≠ ['/'] then
        '/' :: (if params.isEmpty then path else path ++ ';' :: params)
      else (if params.isEmpty then path else path ++ ';' :: params)),
      by simp [httpsPre, List.append_assoc]⟩
  · exact ⟨H ++ (if !(if params.isEmpty then path else path ++ ';' :: params).isEmpty &&
        (if params.isEmpty then path else path ++ ';' :: params).take 1 ≠ ['/'] then
        '/' :: (if params.isEmpty then path else path ++ ';' :: params)
      else (if params.isEmpty then path else path ++ ';' :: params)) ++ '#' :: frag,
      by simp [httpsPre, List.append_assoc]⟩
  · exact ⟨H ++ (if !(if params.isEmpty then path else path ++ ';' :: params).isEmpty &&
        (if params.isEmpty then path else path ++ ';' :: params).take 1 ≠ ['/'] then
        '/' :: (if params.isEmpty then path else path ++ ';' :: params)
      else (if params.isEmpty then path else path ++ ';' :: params)) ++ '?' :: query,
      by simp [httpsPre, List.append_assoc]⟩
  · exact ⟨H ++ (if !(if params.isEmpty then path else path ++ ';' :: params).isEmpty &&
        (if params.isEmpty then path else path ++ ';' :: params).take 1 ≠ ['/'] then
        '/' :: (if params.isEmpty then path else path ++ ';' :: params)
      else (if params.isEmpty then path else path ++ ';' :: params)) ++
        '?' :: query ++ '#' :: frag,
      by simp [httpsPre, List.append_assoc]⟩

theorem httpsInject_github_slash (Y token : List Char) :
    ∃ tail, httpsInject (httpsPre ++ ("github.com".data ++ '/' :: Y)) token =
      some (httpsPre ++ "x-access-token:".data ++ token ++ '@' :: tail) := by
  obtain ⟨tail, htail⟩ := urlunparse_auth_shape token "github.com".data
    (splitParams (splitOnce '?' (splitOnce '#' ('/' :: Y)).1).1).1
    (splitParams (splitOnce '?' (splitOnce '#' ('/' :: Y)).1).1).2
    (splitOnce '?' (splitOnce '#' ('/' :: Y)).1).2
    (splitOnce '#' ('/' :: Y)).2
  refine ⟨tail, ?_⟩
  show some (urlunparse "https".data
      (("x-access-token:".data ++ token ++ '@' :: "github.com".data) ++ [])
      (splitParams (splitOnce '?' (splitOnce '#' ('/' :: Y)).1).1).1
      (splitParams (splitOnce '?' (splitOnce '#' ('/' :: Y)).1).1).2
      (splitOnce '?' (splitOnce '#' ('/' :: Y)).1).2
      (splitOnce '#' ('/' :: Y)).2) =
    some (httpsPre ++ "x-access-token:".data ++ token ++ '@' :: tail)
  rw [List.append_nil]
  exact congrArg some htail

theorem httpsInject_github_dotgit (token : List Char) :
    ∃ tail, httpsInject "https://github.com.git".data token =
      some (httpsPre ++ "x-access-token:".data ++ token ++ '@' :: tail) := by
  obtain ⟨tail, htail⟩ := urlunparse_auth_shape token "github.com.git".data [] [] [] []
  refine ⟨tail, ?_⟩
  show some (urlunparse "https".data
      (("x-access-token:".data ++ token ++ '@' :: "github.com.git".data) ++ []) [] [] [] []) =
    some (httpsPre ++ "x-access-token:".data ++ token ++ '@' :: tail)
  rw [List.append_nil]
  exact congrArg some htail

/-- C7 (amended): only the literal `git@github.com:` shorthand is
normalized: for every `git@github.com:<path>` input (path free of
whitespace and `@`), the output is an `https://` URL whose authority
embeds `x-access-token:<token>@`; every other input that is not an
HTTPS URL — including SSH shorthands for other hosts or users — is
returned entirely unchanged. -/
theorem c7_shorthand_normalization (token : List Char) :
    (∀ rest : List Char, (∀ c ∈ rest, isSpace c = false ∧ c ≠ '@') →
      ∃ out, buildAuthChars (sshPat ++ rest) token = some out ∧
        httpsPre.isPrefixOf out = true ∧
        ∃ l r, out = l ++ ("x-access-token:".data ++ token ++ '@' :: r)) ∧
    (∀ repo_url : List Char,
      sshPat.isPrefixOf (trimChars repo_url) = false →
      httpsPre.isPrefixOf (trimChars repo_url) = false →
      buildAuthChars repo_url token = some repo_url) := by
  constructor
  · intro rest hsafe
    have hspace : ∀ c ∈ sshPat ++ rest, isSpace c = false := by
      intro c hc
      rcases List.mem_append.mp hc with h1 | h2
      · exact (by decide : ∀ c ∈ sshPat, isSpace c = false) c h1
      · exact (hsafe c h2).1
    have htrim := trimChars_eq_self hspace
    have hrepl : replaceFrom sshPat httpsRep (sshPat ++ rest) = httpsRep ++ rest := by
      rw [replaceFrom_append_pat _ _ _ (by decide),
        replaceFrom_of_not_mem _ (a := '@') (by decide) _ (fun c hc => (hsafe c hc).2)]
    simp only [buildAuthChars, htrim, isPrefixOf_append_self, eq_self_iff_true, if_true,
      ite_true, hrepl]
    by_cases hend : endsWithL dotGit (httpsRep ++ rest)
    · simp only [hend, eq_self_iff_true, if_true, ite_true]
      have hform : httpsRep ++ rest = httpsPre ++ ("github.com".data ++ '/' :: rest) := rfl
      rw [hform, isPrefixOf_append_self]
      simp only [eq_self_iff_true, if_true, ite_true]
      obtain ⟨tail, heq⟩ := httpsInject_github_slash rest token
      refine ⟨httpsPre ++ ("x-access-token:".data ++ token ++ '@' :: tail), ?_, ?_, httpsPre,
        tail, ?_⟩
      · rw [heq]
        simp [List.append_assoc]
      · exact isPrefixOf_append_self ..
      · rfl
    · have hendb : endsWithL dotGit (httpsRep ++ rest) = false := by
        revert hend
        cases endsWithL dotGit (httpsRep ++ rest) <;> simp
      simp only [hendb, Bool.false_eq_true, if_false, ite_false]
      by_cases hslash : ∃ c ∈ rest, c ≠ '/'
      · have hr : rstripSlash (httpsRep ++ rest) = httpsRep ++ rstripSlash rest :=
          rstripSlash_append hslash
        rw [hr]
        have hform : httpsRep ++ rstripSlash rest ++ dotGit =
            httpsPre ++ ("github.com".data ++ '/' :: (rstripSlash rest ++ dotGit)) := by
          simp [List.append_assoc]
          rfl
        rw [hform, isPrefixOf_append_self]
        simp only [eq_self_iff_true, if_true, ite_true]
        obtain ⟨tail, heq⟩ := httpsInject_github_slash (rstripSlash rest ++ dotGit) token
        refine ⟨httpsPre ++ ("x-access-token:".data ++ token ++ '@' :: tail), ?_, ?_, httpsPre,
          tail, ?_⟩
        · rw [heq]
          simp [List.append_assoc]
        · exact isPrefixOf_append_self ..
        · rfl
      · push_neg at hslash
        have hr : rstripSlash (httpsRep ++ rest) = "https://github.com".data := by
          unfold rstripSlash
          rw [List.reverse_append]
          rw [List.dropWhile_append_of_pos
            (fun c hc => by simp [eqChar, hslash c (List.mem_reverse.mp hc)])]
          decide
        rw [hr]
        have hform : ("https://github.com".data ++ dotGit : List Char) =
            "https://github.com.git".data := by decide
        rw [hform]
        rw [show httpsPre.isPrefixOf "https://github.com.git".data = true from by decide]
        simp only [eq_self_iff_true, if_true, ite_true]
        obtain ⟨tail, heq⟩ := httpsInject_github_dotgit token
        refine ⟨httpsPre ++ ("x-access-token:".data ++ token ++ '@' :: tail), ?_, ?_, httpsPre,
          tail, ?_⟩
        · rw [heq]
          simp [List.append_assoc]
        · exact isPrefixOf_append_self ..
        · rfl
  · intro repo_url hssh hhttps
    simp only [buildAuthChars, hssh, Bool.false_eq_true, if_false, ite_false]
    by_cases hend : endsWithL dotGit (trimChars repo_url)
    · simp only [hend, eq_self_iff_true, if_true, ite_true, hhttps, Bool.false_eq_true,
        if_false, ite_false]
    · have hendb : endsWithL dotGit (trimChars repo_url) = false := by
        revert hend
        cases endsWithL dotGit (trimChars repo_url) <;> simp
      have hf : httpsPre.isPrefixOf (rstripSlash (trimChars repo_url) ++ dotGit) = false := by
        by_cases hcon : httpsPre.isPrefixOf (rstripSlash (trimChars repo_url) ++ dotGit)
        · exfalso
          have h2 := httpsPre_of_append_dotGit hcon
          obtain ⟨m, hm, -⟩ := rstripSlash_decomp (trimChars repo_url)
          have h3 : httpsPre <+: trimChars repo_url :=
            (List.isPrefixOf_iff_prefix.mp h2).trans ⟨m, hm.symm⟩
          rw [List.isPrefixOf_iff_prefix.mpr h3] at hhttps
          cases hhttps
        · revert hcon
          cases httpsPre.isPrefixOf (rstripSlash (trimChars repo_url) ++ dotGit) <;> simp
      simp only [hendb, Bool.false_eq_true, if_false, ite_false, hf]

/-- C7 (counterexample): `git@gitlab.com:org/repo.git` IS an
SSH-shorthand URL of the form `user@host:path`, yet `build_auth_url`
returns it unchanged — the output does not start with `https://` and
embeds no token, because only the literal `git@github.com:` prefix is
rewritten. -/
theorem c7_counterexample :
    buildAuthChars "git@gitlab.com:org/repo.git".data "t".data =
      some "git@gitlab.com:org/repo.git".data ∧
    httpsPre.isPrefixOf "git@gitlab.com:org/repo.git".data = false := by
  exact ⟨rfl, by decide⟩

/-- C7 (witness): the amended theorem applied to the shorthand
`git@github.com:org/repo.git` and to the unchanged non-HTTPS URL
`ssh://git@other.com/repo`. -/
theorem c7_shorthand_normalization_witness :
    (∃ out, buildAuthChars (sshPat ++ "org/repo.git".data) "t".data = some out ∧
      httpsPre.isPrefixOf out = true ∧
      ∃ l r, out = l ++ ("x-access-token:".data ++ "t".data ++ '@' :: r)) ∧
    buildAuthChars "ssh://git@other.com/repo".data "t".data =
      some "ssh://git@other.com/repo".data :=
  ⟨(c7_shorthand_normalization "t".data).1 "org/repo.git".data (by decide),
   (c7_shorthand_normalization "t".data).2 "ssh://git@other.com/repo".data
     (by decide) (by decide)⟩

theorem hostPort_no_port (host : List Char)
    (hh : ∀ c ∈ host, c ≠ '@' ∧ c ≠ '[' ∧ c ≠ ':') :
    hostPort host = (host, []) := by
  simp only [hostPort]
  rw [List.takeWhile_eq_self_iff.mpr
      (fun c hc => by simp [neChar, (hh c (List.mem_reverse.mp hc)).1]),
    List.reverse_reverse,
    contains_eq_false_of (fun c hc => (hh c hc).2.1)]
  simp only [Bool.false_eq_true, if_false, ite_false]
  rw [List.takeWhile_eq_self_iff.mpr (fun c hc => by simp [neChar, (hh c hc).2.2]),
    dropWhile_eq_nil_of_all (fun c hc => by simp [neChar, (hh c hc).2.2])]
  rfl

theorem hostPort_with_port (host ds : List Char)
    (hh : ∀ c ∈ host, c ≠ '@' ∧ c ≠ '[' ∧ c ≠ ':')
    (hd : ∀ c ∈ ds, c ≠ '@' ∧ c ≠ '[') :
    hostPort (host ++ ':' :: ds) = (host, ds) := by
  have hmemall : ∀ c ∈ host ++ ':' :: ds, c ≠ '@' ∧ c ≠ '[' := by
    intro c hc
    rcases List.mem_append.mp hc with h1 | h2
    · exact ⟨(hh c h1).1, (hh c h1).2.1⟩
    · rcases List.mem_cons.mp h2 with rfl | h3
      · exact ⟨by decide, by decide⟩
      · exact hd c h3
  simp only [hostPort]
  rw [List.takeWhile_eq_self_iff.mpr
      (fun c hc => by simp [neChar, (hmemall c (List.mem_reverse.mp hc)).1]),
    List.reverse_reverse,
    contains_eq_false_of (fun c hc => (hmemall c hc).2)]
  simp only [Bool.false_eq_true, if_false, ite_false]
  rw [List.takeWhile_append_of_pos (fun c hc => by simp [neChar, (hh c hc).2.2]),
    List.dropWhile_append_of_pos (fun c hc => by simp [neChar, (hh c hc).2.2])]
  simp [List.takeWhile_cons, List.dropWhile_cons, neChar]

theorem hostLower_id (host : List Char) (hpc : ∀ c ∈ host, c ≠ '%')
    (hlow : host.map lowerChar = host) : hostLower host = host := by
  unfold hostLower
  rw [List.takeWhile_eq_self_iff.mpr (fun c hc => by simp [neChar, hpc c hc]),
    dropWhile_eq_nil_of_all (fun c hc => by simp [neChar, hpc c hc]),
    List.append_nil, hlow]

theorem urlunparse_simple (N path2 : List Char) (hN : N.isEmpty = false)
    (hp : path2.take 1 = ['/']) :
    urlunparse "https".data N path2 [] [] [] =
      "https".data ++ ':' :: '/' :: '/' :: (N ++ path2) := by
  have hS : ("https".data).isEmpty = false := rfl
  simp only [urlunparse, List.isEmpty_nil, eq_self_iff_true, if_true, ite_true, hN, hS,
    Bool.not_false, Bool.true_or, Bool.false_eq_true, if_false, ite_false, hp]
  simp

theorem httpsInject_clean (host pstr path2 token : List Char) (portv : Option Nat)
    (hnet_t : (host ++ (pstr ++ path2)).takeWhile notStop = host ++ pstr)
    (hnet_d : (host ++ (pstr ++ path2)).dropWhile notStop = path2)
    (hsp1 : splitOnce '#' path2 = (path2, []))
    (hsp2 : splitOnce '?' path2 = (path2, []))
    (hsp3 : splitParams path2 = (path2, []))
    (hhp : hostPort (host ++ pstr) = (host, pstr.drop 1))
    (hport_render : portSuffix portv = pstr)
    (hpp : parsePort (pstr.drop 1) = Except.ok portv)
    (hhe : host.isEmpty = false)
    (hhl : hostLower host = host) :
    httpsInject (httpsPre ++ (host ++ (pstr ++ path2))) token =
      some (urlunparse "https".data
        ("x-access-token:".data ++ token ++ '@' :: host ++ pstr) path2 [] [] []) := by
  simp only [httpsInject, List.drop_left, hnet_t, hnet_d, hsp1, hsp2, hsp3, hhp, hpp, hhe,
    Bool.false_eq_true, if_false, ite_false, hhl]
  rw [← hport_render]
  cases portv with
  | none => rfl
  | some p => rfl

/-- C6: for every valid HTTPS repository URL
`https://<host>[:<port>]<path>` that does not already end in `.git`
(host non-empty, lowercase, free of delimiter characters; port, when
present, in range 1–65535; path starting with `/`, not all slashes,
free of `?`, `#`, `;` and whitespace), `build_auth_url` returns exactly
`https://x-access-token:<token>@<host>[:<port>]<path-with-trailing-slashes-stripped>.git`:
the output ends with `.git` and its authority is
`x-access-token:<token>@` followed by the original host with the
original port preserved. -/
theorem c6_https_auth_url (host : List Char) (port : Option Nat) (path token : List Char)
    (hhost_ne : host ≠ [])
    (hhost : ∀ c ∈ host, c ≠ '/' ∧ c ≠ '?' ∧ c ≠ '#' ∧ c ≠ ':' ∧ c ≠ '@' ∧ c ≠ '[' ∧
      c ≠ '%' ∧ isSpace c = false)
    (hlow : host.map lowerChar = host)
    (hport : ∀ p ∈ port, 0 < p ∧ p ≤ 65535)
    (hpath : ∀ c ∈ path, c ≠ '?' ∧ c ≠ '#' ∧ c ≠ ';' ∧ isSpace c = false)
    (hpath_head : path.take 1 = ['/'])
    (hpath_ns : ∃ c ∈ path, c ≠ '/')
    (hnogit : endsWithL dotGit (renderUrl host port path) = false) :
    buildAuthChars (renderUrl host port path) token =
      some (httpsPre ++ "x-access-token:".data ++ token ++ '@' ::
        (host ++ renderPort port ++ rstripSlash path ++ dotGit)) ∧
    endsWithL dotGit (httpsPre ++ "x-access-token:".data ++ token ++ '@' ::
        (host ++ renderPort port ++ rstripSlash path ++ dotGit)) = true := by
  have hpstr_chars : ∀ c ∈ renderPort port, c = ':' ∨ isDigitCh c = true := by
    intro c hc
    cases port with
    | none => cases hc
    | some p =>
      rcases List.mem_cons.mp hc with rfl | h2
      · exact Or.inl rfl
      · exact Or.inr (natToDec_mem h2)
  have hpstr_clean : ∀ c ∈ renderPort port,
      c ≠ '/' ∧ c ≠ '?' ∧ c ≠ '#' ∧ c ≠ '@' ∧ c ≠ '[' ∧ isSpace c = false := by
    intro c hc
    rcases hpstr_chars c hc with rfl | hd
    · exact ⟨by decide, by decide, by decide, by decide, by decide, by decide⟩
    · obtain ⟨d1, d2, d3, d4, d5, -, -, d8⟩ := digit_props hd
      exact ⟨d1, d2, d3, d4, d5, d8⟩
  -- the trailing-slash-stripped path still starts with '/'
  obtain ⟨pt, hpt⟩ : ∃ pt, rstripSlash path = '/' :: pt := by
    obtain ⟨m, hm, hms⟩ := rstripSlash_decomp path
    cases hrp : rstripSlash path with
    | nil =>
      exfalso
      rw [hrp] at hm
      simp at hm
      obtain ⟨c, hc, hcn⟩ := hpath_ns
      exact hcn (hms c (hm ▸ hc))
    | cons a pt =>
      rw [hrp] at hm
      have hta : path.take 1 = [a] := by rw [hm]; rfl
      rw [hpath_head] at hta
      injection hta with ha
      exact ⟨pt, by rw [← ha]⟩
  have hmem_rsp : ∀ c ∈ rstripSlash path, c ≠ '?' ∧ c ≠ '#' ∧ c ≠ ';' ∧ isSpace c = false :=
    fun c hc => hpath c (mem_rstripSlash hc)
  -- no whitespace anywhere in the rendered URL
  have hsp : ∀ c ∈ renderUrl host port path, isSpace c = false := by
    intro c hc
    unfold renderUrl at hc
    rcases List.mem_append.mp hc with hc1 | hc4
    · rcases List.mem_append.mp hc1 with hc2 | hc3
      · rcases List.mem_append.mp hc2 with hc5 | hc6
        · exact (by decide : ∀ c ∈ httpsPre, isSpace c = false) c hc5
        · exact (hhost c hc6).2.2.2.2.2.2.2
      · exact (hpstr_clean c hc3).2.2.2.2.2
    · exact (hpath c hc4).2.2.2
  have htrim := trimChars_eq_self hsp
  have hssh : sshPat.isPrefixOf (renderUrl host port path) = false := rfl
  have hr : rstripSlash (renderUrl host port path) ++ dotGit =
      httpsPre ++ (host ++ (renderPort port ++ (rstripSlash path ++ dotGit))) := by
    unfold renderUrl
    rw [show httpsPre ++ host ++ renderPort port ++ path =
        (httpsPre ++ host ++ renderPort port) ++ path from by simp [List.append_assoc],
      rstripSlash_append hpath_ns]
    simp [List.append_assoc]
  simp only [buildAuthChars, htrim, hssh, Bool.false_eq_true, if_false, ite_false, hnogit, hr]
  rw [isPrefixOf_append_self]
  simp only [eq_self_iff_true, if_true, ite_true]
  -- netloc / remainder of the parse
  have hnet_t : (host ++ (renderPort port ++ (rstripSlash path ++ dotGit))).takeWhile notStop =
      host ++ renderPort port := by
    rw [List.takeWhile_append_of_pos (fun c hc => by
        obtain ⟨d1, d2, d3, -⟩ := hhost c hc
        simp [notStop, d1, d2, d3]),
      List.takeWhile_append_of_pos (fun c hc => by
        obtain ⟨d1, d2, d3, -⟩ := hpstr_clean c hc
        simp [notStop, d1, d2, d3])]
    rw [hpt]
    simp [List.takeWhile_cons, notStop]
  have hnet_d : (host ++ (renderPort port ++ (rstripSlash path ++ dotGit))).dropWhile notStop =
      rstripSlash path ++ dotGit := by
    rw [List.dropWhile_append_of_pos (fun c hc => by
        obtain ⟨d1, d2, d3, -⟩ := hhost c hc
        simp [notStop, d1, d2, d3]),
      List.dropWhile_append_of_pos (fun c hc => by
        obtain ⟨d1, d2, d3, -⟩ := hpstr_clean c hc
        simp [notStop, d1, d2, d3])]
    rw [hpt]
    simp [List.dropWhile_cons, notStop]
  have hrem_no : ∀ c ∈ rstripSlash path ++ dotGit, c ≠ '#' ∧ c ≠ '?' ∧ c ≠ ';' := by
    intro c hc
    rcases List.mem_append.mp hc with h1 | h2
    · obtain ⟨d1, d2, d3, -⟩ := hmem_rsp c h1
      exact ⟨d2, d1, d3⟩
    · exact (by decide : ∀ c ∈ dotGit, c ≠ '#' ∧ c ≠ '?' ∧ c ≠ ';') c h2
  have hsp1 := splitOnce_of_not_mem (t := '#') (fun c hc => (hrem_no c hc).1)
  have hsp2 := splitOnce_of_not_mem (t := '?') (fun c hc => (hrem_no c hc).2.1)
  have hsp3 := splitParams_of_not_mem (l := rstripSlash path ++ dotGit)
    (fun c hc => (hrem_no c hc).2.2)
  have hhh : ∀ c ∈ host, c ≠ '@' ∧ c ≠ '[' ∧ c ≠ ':' := by
    intro c hc
    obtain ⟨-, -, -, d4, d5, d6, -, -⟩ := hhost c hc
    exact ⟨d5, d6, d4⟩
  have hhp : hostPort (host ++ renderPort port) = (host, (renderPort port).drop 1) := by
    cases port with
    | none =>
      simp only [renderPort, List.append_nil, List.drop_nil]
      exact hostPort_no_port host hhh
    | some p =>
      simp only [renderPort, List.drop_succ_cons, List.drop_zero]
      exact hostPort_with_port host (natToDec p) hhh (fun c hc => by
        obtain ⟨-, -, -, d4, d5, -, -, -⟩ := digit_props (natToDec_mem hc)
        exact ⟨d4, d5⟩)
  have hpp : parsePort ((renderPort port).drop 1) = Except.ok port := by
    cases port with
    | none => rfl
    | some p =>
      obtain ⟨hp0, hp65⟩ := hport p rfl
      simp only [renderPort, List.drop_succ_cons, List.drop_zero]
      have hne : (natToDec p).isEmpty = false := by
        unfold natToDec
        rw [if_neg (by omega)]
        have h1 := natToDecAux_ne_nil hp0
        revert h1
        cases natToDecAux p [] <;> simp
      unfold parsePort
      rw [hne]
      simp only [Bool.false_eq_true, if_false, ite_false]
      rw [List.all_eq_true.mpr (fun c hc => natToDec_mem (by simpa using hc)),
        decVal_natToDec hp0]
      simp [hp65]
  have hhe : host.isEmpty = false := by
    revert hhost_ne
    cases host <;> simp
  have hhl : hostLower host = host :=
    hostLower_id host (fun c hc => (hhost c hc).2.2.2.2.2.2.1) hlow
  have hport_render : portSuffix port = renderPort port := by
    cases port with
    | none => rfl
    | some p =>
      obtain ⟨hp0, -⟩ := hport p rfl
      have hpne : p ≠ 0 := by omega
      simp [portSuffix, renderPort, hpne]
  rw [httpsInject_clean host (renderPort port) (rstripSlash path ++ dotGit) token port
    hnet_t hnet_d hsp1 hsp2 hsp3 hhp hport_render hpp hhe hhl]
  constructor
  · rw [urlunparse_simple _ _ (by rfl) (by rw [hpt]; rfl)]
    simp [httpsPre, List.append_assoc]
  · have hform : httpsPre ++ "x-access-token:".data ++ token ++ '@' ::
        (host ++ renderPort port ++ rstripSlash path ++ dotGit) =
        (httpsPre ++ "x-access-token:".data ++ token ++ '@' ::
          (host ++ renderPort port ++ rstripSlash path)) ++ dotGit := by
      simp [List.append_assoc]
    rw [hform]
    exact endsWithL_append _ _

/-- C6 (witness): the HTTPS theorem instantiated at
`https://github.com/org/repo` with token `secret`. -/
theorem c6_https_auth_url_witness :
    buildAuthChars (renderUrl "github.com".data none "/org/repo".data) "secret".data =
      some (httpsPre ++ "x-access-token:".data ++ "secret".data ++ '@' ::
        ("github.com".data ++ renderPort none ++ rstripSlash "/org/repo".data ++ dotGit)) ∧
    endsWithL dotGit (httpsPre ++ "x-access-token:".data ++ "secret".data ++ '@' ::
        ("github.com".data ++ renderPort none ++ rstripSlash "/org/repo".data ++ dotGit)) =
      true :=
  c6_https_auth_url "github.com".data none "/org/repo".data "secret".data
    (by decide) (by decide) (by decide) (by intro p hp; cases hp) (by decide) (by decide)
    (by decide) (by decide)

end ArgoHelmDeploy
